/-
Verification of the sampled `puffin`/`gourgeist` sources against their
natural-language specification.

Part A embeds `crates/gourgeist/src/bare.rs` (bare virtualenv creation):
the filesystem is modelled as an association list from paths (lists of
segments) to nodes, and `create_bare_venv` is transcribed step by step.

Part B embeds the dependency resolver exercised by
`crates/puffin-resolver/tests/resolver.rs`.  The resolver's own sources are
not part of the sampled tree, so the resolver is modelled from the
specification (definitions carrying a `Modelled from the spec:` doc
comment), with the in-tree integration tests as the authority on concrete
behaviour.
-/
import Mathlib

namespace VenvModel

/-- Paths are lists of segments, e.g. `[".venv", "bin", "python"]`. -/
abbrev FsPath := List String

/-- Filesystem node: a directory, a regular file with contents, or a
symbolic link holding its target as written. -/
inductive FsNode where
  | dir : FsNode
  | file : String → FsNode
  | symlink : String → FsNode
deriving DecidableEq

instance : Inhabited FsNode := ⟨FsNode.dir⟩

/-- Filesystem as an association list from paths to nodes. -/
abbrev Fs := List (FsPath × FsNode)

/-- Does a path exist in the filesystem (as a key)? -/
def Fs.existsPath (fs : Fs) (p : FsPath) : Bool :=
  fs.any (fun e => e.1 == p)

/-- Look up the node stored at a path (last write wins: entries are
prepended). -/
def Fs.lookup (fs : Fs) (p : FsPath) : Option FsNode :=
  match fs with
  | [] => none
  | e :: rest => if e.1 == p then some e.2 else Fs.lookup rest p

/-- Is the path a regular file, as `Path::is_file` reports? -/
def Fs.isFile (fs : Fs) (p : FsPath) : Bool :=
  match fs.lookup p with
  | some (FsNode.file _) => true
  | _ => false

/-- Write (create or overwrite) a node at a path; models `fs::write`,
`symlink` and single-directory creation. -/
def Fs.setEntry (fs : Fs) (p : FsPath) (n : FsNode) : Fs :=
  (p, n) :: fs.filter (fun e => !(e.1 == p))

/-- Remove a path and everything below it; models `fs::remove_dir_all`. -/
def Fs.removeDirAll (fs : Fs) (p : FsPath) : Fs :=
  fs.filter (fun e => !(p.isPrefixOf e.1))

/-- Add a directory entry if the path is not present yet. -/
def Fs.addDirIfMissing (fs : Fs) (p : FsPath) : Fs :=
  if fs.existsPath p then fs else (p, FsNode.dir) :: fs

/-- All ancestors of a path including the path itself, shortest first. -/
def ancestorsOf (p : FsPath) : List FsPath :=
  (List.range p.length).map (fun i => p.take (i + 1))

/-- Create a directory and all missing ancestors; models
`fs::create_dir_all`. -/
def Fs.createDirAll (fs : Fs) (p : FsPath) : Fs :=
  (ancestorsOf p).foldl Fs.addDirIfMissing fs

/-- Interpreter facts consumed by `create_bare_venv`, mirroring the
`puffin_interpreter::Interpreter` accessors the source calls.  Paths are
kept as plain strings with `/` separators. -/
structure Interpreter where
  sys_executable : String
  python_version_string : String
  basePrefixPath : String
  baseExecPrefixPath : String
  simple_version : Nat × Nat
deriving DecidableEq

/-- Crate version baked in through `env!("CARGO_PKG_VERSION")`; the exact
value is irrelevant to every claim, only the key it is stored under
matters. -/
def cargo_pkg_version : String := "0.1.0"

/-- Split a character list on `/`. -/
def splitSlash : List Char → List (List Char)
  | [] => [[]]
  | c :: rest =>
    let r := splitSlash rest
    if c = '/' then [] :: r
    else
      match r with
      | [] => [[c]]
      | h :: t => (c :: h) :: t

/-- Join character lists with `/`. -/
def joinSlash : List (List Char) → List Char
  | [] => []
  | [x] => x
  | x :: xs => x ++ '/' :: joinSlash xs

/-- Dirname of a `/`-separated path string, used for
`base_python.parent()`. -/
def parentDir (s : String) : Option String :=
  let parts := splitSlash s.data
  if parts.length ≤ 1 then none
  else some ⟨joinSlash parts.dropLast⟩

/-- Transcription of the `pyvenv_cfg_data` array built in
`create_bare_venv` (bare.rs lines 153-172): eight key/value pairs in
source order, including the `gourgeist` crate-version entry. -/
def pyvenv_cfg_data (interp : Interpreter) (python_home : String)
    (base_python : String) : List (String × String) :=
  [("home", python_home),
   ("implementation", "CPython"),
   ("version_info", interp.python_version_string),
   ("gourgeist", cargo_pkg_version),
   ("include-system-site-packages", "false"),
   ("base-prefix", interp.basePrefixPath),
   ("base-exec-prefix", interp.baseExecPrefixPath),
   ("base-executable", base_python)]

/-- Transcription of `write_cfg`: one `key = value` line per entry,
written in sequence as the source's `writeln!` loop does. -/
def write_cfg : List (String × String) → String
  | [] => ""
  | kv :: rest => kv.1 ++ " = " ++ kv.2 ++ "\n" ++ write_cfg rest

/-- Absolute paths of the virtualenv, as returned by `create_bare_venv`
(struct `VenvPaths` in bare.rs). -/
structure VenvPaths where
  root : FsPath
  interpreter : FsPath
  bin : FsPath
  site_packages : FsPath
deriving DecidableEq

/-- Error kinds surfaced by the model of `create_bare_venv`. -/
inductive VenvError where
  | alreadyExists : String → VenvError
  | notFound : String → VenvError
deriving DecidableEq

/-- Names of the activation scripts written into `bin`
(`ACTIVATE_TEMPLATES` in bare.rs); the template contents come from
`include_str!` files that are not part of the sampled tree, so each is
modelled as an abstract placeholder body derived from its name. -/
def activateTemplateNames : List String :=
  ["activate", "activate.csh", "activate.fish", "activate.nu",
   "activate.ps1", "activate_this.py"]

/-- Placeholder template body for an activation script; contains the two
placeholders the source substitutes. -/
def activateTemplateBody (name : String) : String :=
  "template " ++ name ++ " \x7b\x7b VIRTUAL_ENV_DIR \x7d\x7d \x7b\x7b RELATIVE_SITE_PACKAGES \x7d\x7d"

/-- Placeholder body of the `_virtualenv.py` patch (`include_str!` content
not in the sampled tree). -/
def virtualenvPatch : String := "virtualenv patch"

/-- Render a path as a `/`-joined string (used for the
`{{ VIRTUAL_ENV_DIR }}` substitution). -/
def renderPath (p : FsPath) : String := String.intercalate "/" p

/-- Relative site-packages string substituted into the activators. -/
def relativeSitePackages (interp : Interpreter) : String :=
  "../lib/python" ++ toString interp.simple_version.1 ++ "." ++
    toString interp.simple_version.2 ++ "/site-packages"

/-- Replace every non-overlapping occurrence of `pat` by `rep`, scanning
left to right; the fuel argument makes the recursion structural. -/
def replaceCharsAux (pat rep : List Char) : Nat → List Char → List Char
  | 0, l => l
  | _ + 1, [] => []
  | fuel + 1, c :: rest =>
    if pat ≠ [] ∧ pat.isPrefixOf (c :: rest) then
      rep ++ replaceCharsAux pat rep fuel ((c :: rest).drop pat.length)
    else c :: replaceCharsAux pat rep fuel rest

/-- String substitution modelling `str::replace` (all occurrences). -/
def replaceStr (s pat rep : String) : String :=
  ⟨replaceCharsAux pat.data rep.data (s.data.length + 1) s.data⟩

/-- Instantiate one activation-script template, performing the two
`replace` calls of the source. -/
def instantiateActivator (interp : Interpreter) (location : FsPath)
    (name : String) : String :=
  replaceStr
    (replaceStr (activateTemplateBody name) "\x7b\x7b VIRTUAL_ENV_DIR \x7d\x7d" (renderPath location))
    "\x7b\x7b RELATIVE_SITE_PACKAGES \x7d\x7d" (relativeSitePackages interp)

/-- Directory name `python{major}.{minor}` used under `lib`. -/
def pythonDirName (interp : Interpreter) : String :=
  "python" ++ toString interp.simple_version.1 ++ "." ++
    toString interp.simple_version.2

/-- Everything `create_bare_venv` does after the existing-directory guard,
on the unix path of the source: create the location, the `bin` directory,
the interpreter symlinks, the activation scripts, `pyvenv.cfg`, and
`site-packages` with the virtualenv patch.  Transcribed from bare.rs
lines 75-199; `canonicalize` is the identity in this model (the model
filesystem has no symlinked ancestors). -/
def createVenvFiles (fs0 : Fs) (location : FsPath) (interp : Interpreter) :
    Except VenvError (Fs × VenvPaths) :=
  let base_python := interp.sys_executable
  let fs1 := fs0.createDirAll location
  let bin_dir := location ++ ["bin"]
  let fs2 := fs1.setEntry (location ++ [".gitignore"]) (FsNode.file "*")
  let fs3 := fs2.setEntry bin_dir FsNode.dir
  let venv_python := bin_dir ++ ["python"]
  let fs4 := fs3.setEntry venv_python (FsNode.symlink base_python)
  let fs5 := fs4.setEntry
    (bin_dir ++ ["python" ++ toString interp.simple_version.1])
    (FsNode.symlink "python")
  let fs6 := fs5.setEntry (bin_dir ++ [pythonDirName interp])
    (FsNode.symlink "python")
  let fs7 := activateTemplateNames.foldl
    (fun fs name =>
      fs.setEntry (bin_dir ++ [name])
        (FsNode.file (instantiateActivator interp location name)))
    fs6
  match parentDir base_python with
  | none =>
    Except.error (VenvError.notFound
      "The python interpreter needs to have a parent directory")
  | some python_home =>
    let fs8 := fs7.setEntry (location ++ ["pyvenv.cfg"])
      (FsNode.file (write_cfg (pyvenv_cfg_data interp python_home base_python)))
    let site_packages := location ++ ["lib", pythonDirName interp, "site-packages"]
    let fs9 := fs8.createDirAll site_packages
    let fs10 := fs9.setEntry (site_packages ++ ["_virtualenv.py"])
      (FsNode.file virtualenvPatch)
    let fs11 := fs10.setEntry (site_packages ++ ["_virtualenv.pth"])
      (FsNode.file "import _virtualenv")
    Except.ok (fs11,
      { root := location
        interpreter := venv_python
        bin := bin_dir
        site_packages := site_packages })

/-- Transcription of `create_bare_venv` (bare.rs lines 59-199): the
existing-directory guard followed by the materialization steps. -/
def create_bare_venv (fs : Fs) (location : FsPath) (interp : Interpreter) :
    Except VenvError (Fs × VenvPaths) :=
  if fs.existsPath location then
    if fs.isFile (location ++ ["pyvenv.cfg"]) then
      createVenvFiles (fs.removeDirAll location) location interp
    else
      Except.error (VenvError.alreadyExists
        ("The directory " ++ renderPath location ++ " exists, but it is not virtualenv"))
  else
    createVenvFiles fs location interp

/-- Keys of the pyvenv.cfg entries, in write order. -/
def pyvenvCfgKeys (interp : Interpreter) (python_home : String)
    (base_python : String) : List String :=
  (pyvenv_cfg_data interp python_home base_python).map Prod.fst

/-- Concrete interpreter used to instantiate hypothesis-carrying theorems. -/
def sampleInterpreter : Interpreter :=
  { sys_executable := "/usr/bin/python3.11"
    python_version_string := "3.11"
    basePrefixPath := "/usr"
    baseExecPrefixPath := "/usr"
    simple_version := (3, 11) }

/-- Concrete filesystem holding a previously created virtualenv at
`.venv` (a `pyvenv.cfg` file is present). -/
def fsWithCfg : Fs :=
  [([".venv"], FsNode.dir),
   ([".venv", "pyvenv.cfg"], FsNode.file "home = /usr/bin\n"),
   ([".venv", "bin"], FsNode.dir)]

/-- Concrete filesystem holding a non-virtualenv directory at `.venv`
(no `pyvenv.cfg`). -/
def fsPlainDir : Fs :=
  [([".venv"], FsNode.dir),
   ([".venv", "data.txt"], FsNode.file "hello")]

/-- Concrete venv-creation run used by witnesses. -/
def sampleVenvRun : Except VenvError (Fs × VenvPaths) :=
  create_bare_venv [] [".venv"] sampleInterpreter

/-- Filesystem produced by the sample run. -/
def sampleVenvFs : Fs :=
  match sampleVenvRun with
  | Except.ok r => r.1
  | Except.error _ => []

/-- Paths produced by the sample run. -/
def sampleVenvPaths : VenvPaths :=
  match sampleVenvRun with
  | Except.ok r => r.2
  | Except.error _ => { root := [], interpreter := [], bin := [], site_packages := [] }

end VenvModel

namespace ResolverModel

/-- Modelled from the spec: a PEP 440 version reduced to what the sampled
tests exercise — release segments plus an optional pre-release number
(`some n` marks a pre-release such as `b\x7bn\x7d`); epochs, post/dev
markers and local labels are not exercised by any sampled scenario.
Versions are kept in normalized form (no trailing zero segments). -/
structure Version where
  release : List Nat
  pre : Option Nat
deriving DecidableEq, Repr

/-- Lexicographic comparison of release-segment lists. -/
def cmpSegs : List Nat → List Nat → Ordering
  | [], [] => Ordering.eq
  | [], _ :: _ => Ordering.lt
  | _ :: _, [] => Ordering.gt
  | a :: as, b :: bs =>
    match compare a b with
    | Ordering.eq => cmpSegs as bs
    | o => o

/-- Comparison of the pre-release component: a pre-release sorts before
the final release with the same segments. -/
def cmpPre : Option Nat → Option Nat → Ordering
  | none, none => Ordering.eq
  | none, some _ => Ordering.gt
  | some _, none => Ordering.lt
  | some a, some b => compare a b

/-- PEP 440 total order on the modelled versions. -/
def Version.cmp (a b : Version) : Ordering :=
  match cmpSegs a.release b.release with
  | Ordering.eq => cmpPre a.pre b.pre
  | o => o

/-- Boolean `≤` on versions, used for sorting candidate sequences. -/
def vleb (a b : Version) : Bool :=
  match Version.cmp a b with
  | Ordering.gt => false
  | _ => true

/-- Is this a pre-release? -/
def Version.isPre (v : Version) : Bool := v.pre.isSome

/-- Specifier operators of the requirement grammar. -/
inductive Op where
  | eq | ne | lt | le | gt | ge
deriving DecidableEq, Repr

/-- One version predicate, e.g. `<=23.9.1`. -/
structure VersionPred where
  op : Op
  version : Version
deriving DecidableEq, Repr

/-- A specifier is a conjunction of version predicates. -/
abbrev Specifier := List VersionPred

/-- Does a version satisfy one predicate?  Defined through the PEP 440
order. -/
def VersionPred.matches (p : VersionPred) (v : Version) : Bool :=
  match p.op, Version.cmp v p.version with
  | Op.eq, Ordering.eq => true
  | Op.eq, _ => false
  | Op.ne, Ordering.eq => false
  | Op.ne, _ => true
  | Op.lt, Ordering.lt => true
  | Op.lt, _ => false
  | Op.le, Ordering.gt => false
  | Op.le, _ => true
  | Op.gt, Ordering.gt => true
  | Op.gt, _ => false
  | Op.ge, Ordering.lt => false
  | Op.ge, _ => true

/-- Does a version satisfy a whole specifier? -/
def Specifier.satisfies (s : Specifier) (v : Version) : Bool :=
  s.all (fun p => p.matches v)

/-- Does a specifier syntactically mention a pre-release bound (used by
`PreReleaseMode::Explicit`)? -/
def Specifier.mentionsPre (s : Specifier) : Bool :=
  s.any (fun p => p.version.isPre)

/-- A requirement: normalized package name, extras, and a specifier.
Markers are not modelled: every sampled scenario runs against the fixed
CPython 3.11 macOS environment where each exercised marker is true. -/
structure Requirement where
  name : String
  extras : List String
  specifier : Specifier
deriving DecidableEq, Repr

/-- Manifest handed to the resolver: root requirements, constraints and
preferences (the sampled tests always pass `None` for the project
requirement, which is therefore not modelled). -/
structure Manifest where
  requirements : List Requirement
  constraints : List Requirement
  preferences : List Requirement
deriving DecidableEq

/-- Resolution modes of `ResolutionMode`. -/
inductive ResolutionMode where
  | highest | lowest | lowestDirect
deriving DecidableEq

/-- Pre-release modes of `PreReleaseMode`. -/
inductive PreReleaseMode where
  | disallow | ifNecessary | explicitPre | allow
deriving DecidableEq

/-- Options of `ResolutionOptions`; the `exclude_newer` timestamp is an
abstract instant. -/
structure ResolutionOptions where
  mode : ResolutionMode
  prerelease : PreReleaseMode
  excludeNewer : Option Nat
deriving DecidableEq

/-- Modelled from the spec: per-version index data — declared
dependencies, extras table (`extras_require`), upload time, yanked flag,
and whether the release carries a platform-compatible wheel and/or a
source distribution. -/
structure VersionInfo where
  deps : List Requirement
  optionalDeps : List (String × List Requirement)
  uploadTime : Option Nat
  yanked : Bool
  hasCompatibleWheel : Bool
  hasSdist : Bool

/-- Modelled from the spec: per-package index data; `versions` arrives in
arbitrary (network-determined) order and is sorted by the candidate
provider. -/
structure PackageInfo where
  versions : List Version
  info : Version → VersionInfo

/-- Modelled from the spec: the metadata snapshot of the remote index — a
finite package listing plus a lookup function. -/
structure Index where
  packages : List String
  get : String → PackageInfo

/-- Result of calling one method of the build-context collaborator: a
value, or an unconditional panic as in the test stub. -/
inductive CtxResult (α : Type) where
  | value : α → CtxResult α
  | panicked : String → CtxResult α
deriving DecidableEq

/-- The `BuildContext` trait surface the resolver consumes, with each
method modelled by its outcome. -/
structure BuildContext where
  cache : CtxResult String
  interpreter : CtxResult VenvModel.Interpreter
  base_python : CtxResult String
  resolve : CtxResult (List Requirement)
  install : CtxResult Unit
  build_source : CtxResult String

/-- Panic message used by every stubbed method of the test harness's
`DummyContext`. -/
def dummyPanicMsg : String :=
  "The test should not need to build source distributions"

/-- Transcription of the test harness's `DummyContext`: every method
except `interpreter` panics unconditionally. -/
def DummyContext (interp : VenvModel.Interpreter) : BuildContext :=
  { cache := CtxResult.panicked dummyPanicMsg
    interpreter := CtxResult.value interp
    base_python := CtxResult.panicked dummyPanicMsg
    resolve := CtxResult.panicked dummyPanicMsg
    install := CtxResult.panicked dummyPanicMsg
    build_source := CtxResult.panicked dummyPanicMsg }

/-- Errors surfaced by the modelled resolver. -/
inductive ResolutionError where
  | noSolution : String → ResolutionError
  | conflict : String → ResolutionError
  | buildPanic : String → ResolutionError
  | depthExceeded : ResolutionError
deriving DecidableEq, Repr

/-- Package metadata as delivered to the solver: base dependencies plus
the extras table. -/
abbrev Metadata := List Requirement × List (String × List Requirement)

/-- Modelled from the spec (§4.2): metadata resolution — a wheel's
METADATA is read directly; a source distribution requires the build
collaborator, whose panic (in the test stub) surfaces as an error. -/
def fetchMetadata (ctx : BuildContext) (vi : VersionInfo) :
    Except ResolutionError Metadata :=
  if vi.hasCompatibleWheel then Except.ok (vi.deps, vi.optionalDeps)
  else
    match ctx.build_source with
    | CtxResult.value _ => Except.ok (vi.deps, vi.optionalDeps)
    | CtxResult.panicked msg => Except.error (ResolutionError.buildPanic msg)

/-- Does some root requirement pin exactly this version (exemption of the
yanked filter)? -/
def rootPinsExact (roots : List Requirement) (p : String) (v : Version) : Bool :=
  roots.any (fun r =>
    r.name == p && r.specifier.any (fun pr => pr.op == Op.eq && pr.version == v))

/-- All dependency requirements declared anywhere in the index (base and
extra dependencies), used for the up-front `Explicit` scan over
root-or-derived specifiers. -/
def Index.allDeps (idx : Index) : List Requirement :=
  idx.packages.flatMap (fun q =>
    (idx.get q).versions.flatMap (fun v =>
      ((idx.get q).info v).deps ++
        ((idx.get q).info v).optionalDeps.flatMap Prod.snd))

/-- Modelled from the spec: under `Explicit`, pre-releases are admitted
for a package exactly when some root-or-derived specifier for it
syntactically mentions a pre-release bound, determined once up front. -/
def mentionsPreFor (idx : Index) (roots : List Requirement) (p : String) : Bool :=
  (roots ++ idx.allDeps).any (fun r => r.name == p && r.specifier.mentionsPre)

/-- Modelled from the spec and the sampled tests: per-package pre-release
admission.  `Disallow` admits none, `Allow` all, `Explicit` those with a
syntactic pre-release mention.  For `IfNecessary` the spec describes a
second solver pass, but the in-tree test
`black_allow_prerelease_if_necessary` asserts that `black<=20.0` still
errors (black has stable releases, just none satisfying), so the model
admits pre-releases only for packages having no stable release at all —
no second pass. -/
def preAllowedFor (idx : Index) (opts : ResolutionOptions)
    (roots : List Requirement) (p : String) : Bool :=
  match opts.prerelease with
  | PreReleaseMode.disallow => false
  | PreReleaseMode.allow => true
  | PreReleaseMode.explicitPre => mentionsPreFor idx roots p
  | PreReleaseMode.ifNecessary => (idx.get p).versions.all (fun v => v.isPre)

/-- Modelled from the spec (§4.1 admissibility filters 1-4): drop yanked
releases unless root-pinned, drop releases past `exclude_newer` (files
with no upload time count as post-cutoff), drop releases with no
platform-compatible file, and apply the pre-release policy. -/
def passesFilters (opts : ResolutionOptions) (roots : List Requirement)
    (preAllowed : Bool) (p : String) (vi : VersionInfo) (v : Version) : Bool :=
  (!vi.yanked || rootPinsExact roots p v) &&
  (match opts.excludeNewer with
   | none => true
   | some cutoff =>
     match vi.uploadTime with
     | none => false
     | some t => decide (t ≤ cutoff)) &&
  (vi.hasCompatibleWheel || vi.hasSdist) &&
  (!v.isPre || preAllowed)

/-- Version order as a proposition, for sorting candidate sequences. -/
def vle (a b : Version) : Prop := vleb a b = true

instance : DecidableRel vle :=
  fun a b => inferInstanceAs (Decidable (vleb a b = true))

/-- Boolean order on character lists (the core string order is
iterator-based and does not reduce in the kernel). -/
def charListLeb : List Char → List Char → Bool
  | [], _ => true
  | _ :: _, [] => false
  | a :: as, b :: bs => if a = b then charListLeb as bs else decide (a < b)

/-- Lexicographic order on strings, as a proposition. -/
def strLe (a b : String) : Prop := charListLeb a.data b.data = true

instance : DecidableRel strLe :=
  fun a b => inferInstanceAs (Decidable (charListLeb a.data b.data = true))

/-- Modelled from the spec (candidate ordering, §4.1): ascending for
`Lowest` everywhere and for root packages under `LowestDirect`,
descending otherwise. -/
def orderedVersions (idx : Index) (opts : ResolutionOptions)
    (rootNames : List String) (p : String) : List Version :=
  let asc := List.insertionSort vle (idx.get p).versions
  match opts.mode with
  | ResolutionMode.highest => asc.reverse
  | ResolutionMode.lowest => asc
  | ResolutionMode.lowestDirect =>
    if rootNames.contains p then asc else asc.reverse

/-- Modelled from the spec: the candidate provider — the mode-ordered
version sequence of a package, restricted to the admissibility filters. -/
def admissibleVersions (idx : Index) (opts : ResolutionOptions)
    (roots : List Requirement) (p : String) : List Version :=
  (orderedVersions idx opts (roots.map Requirement.name) p).filter
    (fun v => passesFilters opts roots (preAllowedFor idx opts roots p) p
      ((idx.get p).info v) v)

/-- Does a version pass every applicable constraint?  Constraints are
consulted through their name and specifier only. -/
def consOk (cons : List (String × Specifier)) (p : String) (v : Version) : Bool :=
  cons.all (fun c => !(c.1 == p) || c.2.satisfies v)

/-- Modelled from the spec: "Constraints with extras are treated as if
the extras were absent" — constraints are normalized to name/specifier
pairs before the solver loop. -/
def normalizeConstraints (cs : List Requirement) : List (String × Specifier) :=
  cs.map (fun c => (c.name, c.specifier))

/-- Does some preference pin this package to this version? -/
def prefMatches (prefs : List Requirement) (p : String) (v : Version) : Bool :=
  prefs.any (fun r => r.name == p && r.specifier.satisfies v)

/-- Names of extras of a requirement not yet activated for its package. -/
def newExtras (extras : List (String × String)) (r : Requirement) : List String :=
  r.extras.filter (fun e => !(extras.contains (r.name, e)))

/-- Dependencies contributed by a list of extras according to a metadata
record. -/
def extrasDeps (md : Metadata) (es : List String) : List Requirement :=
  es.flatMap (fun e =>
    match md.2.find? (fun kv => kv.1 == e) with
    | some kv => kv.2
    | none => [])

/-- Candidate sequence for one decision: the admissible sequence of the
package, narrowed by the requirement's specifier and the constraints. -/
def candidatePool (cands : String → List Version)
    (cons : List (String × Specifier)) (r : Requirement) : List Version :=
  (cands r.name).filter
    (fun v => r.specifier.satisfies v && consOk cons r.name v)

/-- Decision rule: a currently admissible preference is tried first,
otherwise the first candidate of the mode-ordered pool is taken. -/
def pickCandidate (cands : String → List Version)
    (cons : List (String × Specifier)) (prefs : List Requirement)
    (r : Requirement) : Option Version :=
  match (candidatePool cands cons r).find?
      (fun v => prefMatches prefs r.name v) with
  | some v => some v
  | none => (candidatePool cands cons r).head?

/-- Modelled from the spec (§4.3, §9): the solver loop over a worklist of
`(name, extras)`-keyed requirements with assigned versions and activated
extras as the seen set.  At each decision the mode-ordered admissible
sequence is narrowed by the requirement's specifier and the constraints;
a currently admissible preference is tried first, otherwise the first
candidate is taken.  A requirement on an already-assigned package checks
its specifier against the chosen version (the sampled scenarios are
conflict-free, so conflicts surface as errors rather than triggering
PubGrub backjumping) and activates any new extras.  Fuel bounds the
recursion; `resolveFuel` makes it large enough for every terminating
run. -/
def resolveLoop (cands : String → List Version)
    (cons : List (String × Specifier)) (prefs : List Requirement)
    (depsOf : String → Version → Except ResolutionError Metadata) :
    Nat → List (String × Version) → List (String × String) →
    List Requirement →
    Except ResolutionError (List (String × Version) × List (String × String))
  | 0, _, _, _ => Except.error ResolutionError.depthExceeded
  | _ + 1, assigned, extras, [] => Except.ok (assigned, extras)
  | fuel + 1, assigned, extras, r :: rest =>
    match (assigned.find? (fun a => a.1 == r.name)) with
    | some (_, v) =>
      if r.specifier.satisfies v then
        match depsOf r.name v with
        | Except.error e => Except.error e
        | Except.ok md =>
          let es := newExtras extras r
          resolveLoop cands cons prefs depsOf fuel assigned
            (extras ++ es.map (fun e => (r.name, e)))
            (rest ++ extrasDeps md es)
      else Except.error (ResolutionError.conflict r.name)
    | none =>
      match pickCandidate cands cons prefs r with
      | none => Except.error (ResolutionError.noSolution r.name)
      | some v =>
        match depsOf r.name v with
        | Except.error e => Except.error e
        | Except.ok md =>
          let es := newExtras extras r
          resolveLoop cands cons prefs depsOf fuel
            ((r.name, v) :: assigned)
            (extras ++ es.map (fun e => (r.name, e)))
            (rest ++ md.1 ++ extrasDeps md es)

/-- Size bound of the index used as recursion fuel. -/
def Index.sizeBound (idx : Index) : Nat :=
  (idx.packages.map (fun p =>
    1 + ((idx.get p).versions.map (fun v =>
      1 + ((idx.get p).info v).deps.length +
        (((idx.get p).info v).optionalDeps.map (fun kv => 1 + kv.2.length)).sum)).sum)).sum

/-- Fuel budget: generous bound on the number of worklist steps of a
terminating run. -/
def resolveFuel (idx : Index) (m : Manifest) : Nat :=
  (m.requirements.length + idx.sizeBound + 2) * (idx.sizeBound + 2)

/-- Resolution graph: one node per package, carrying its sorted active
extras and chosen version, listed sorted by name. -/
abbrev Graph := List (String × List String × Version)

/-- Name order on assigned pairs, for the stable listing. -/
def nameLe (a b : String × Version) : Prop := strLe a.1 b.1

instance : DecidableRel nameLe :=
  fun a b => inferInstanceAs (Decidable (strLe a.1 b.1))

/-- Sorted, deduplicated extras of one package. -/
def extrasFor (extras : List (String × String)) (p : String) : List String :=
  (List.insertionSort strLe
    ((extras.filter (fun pe => pe.1 == p)).map Prod.snd)).dedup

/-- Modelled from the spec (§4.4): the graph builder — nodes keyed by
package, sorted by name, each carrying its active extras and version. -/
def buildGraph (assigned : List (String × Version))
    (extras : List (String × String)) : Graph :=
  (List.insertionSort nameLe assigned).map
    (fun a => (a.1, extrasFor extras a.1, a.2))

/-- Modelled from the spec: the exposed `resolve` operation. -/
def resolve (idx : Index) (ctx : BuildContext) (m : Manifest)
    (opts : ResolutionOptions) : Except ResolutionError Graph :=
  match resolveLoop (admissibleVersions idx opts m.requirements)
      (normalizeConstraints m.constraints) m.preferences
      (fun p v => fetchMetadata ctx ((idx.get p).info v))
      (resolveFuel idx m) [] [] m.requirements with
  | Except.error e => Except.error e
  | Except.ok (assigned, extras) => Except.ok (buildGraph assigned extras)

/-- Text of one version, for the serialized graph. -/
def versionText (v : Version) : String :=
  String.intercalate "." (v.release.map toString) ++
    (match v.pre with
     | none => ""
     | some n => "b" ++ toString n)

/-- Text of one graph node: `name[extras]==version`. -/
def nodeText (n : String × List String × Version) : String :=
  n.1 ++
    (if n.2.1.isEmpty then ""
     else "[" ++ String.intercalate "," n.2.1 ++ "]") ++
    "==" ++ versionText n.2.2

/-- Serialized graph: one line per node in sorted order, trailing
newline. -/
def graphText (g : Graph) : String :=
  String.join (g.map (fun n => nodeText n ++ "\n"))

/-- Names of the packages appearing in a graph. -/
def graphNames (g : Graph) : List String := g.map Prod.fst

/-- Requirement with no extras. -/
def req (n : String) (s : Specifier) : Requirement :=
  { name := n, extras := [], specifier := s }

/-- Requirement with extras. -/
def reqx (n : String) (es : List String) (s : Specifier) : Requirement :=
  { name := n, extras := es, specifier := s }

/-- Version-info record for a release shipping a compatible wheel
uploaded before the cutoff. -/
def wheelInfo (ds : List Requirement)
    (od : List (String × List Requirement)) : VersionInfo :=
  { deps := ds, optionalDeps := od, uploadTime := some 0, yanked := false
    hasCompatibleWheel := true, hasSdist := false }

/-- Stable version from release segments. -/
def ver (segs : List Nat) : Version := { release := segs, pre := none }

/-- Pre-release version from release segments and a pre number. -/
def preVer (segs : List Nat) (n : Nat) : Version :=
  { release := segs, pre := some n }

/-- Empty package: no versions. -/
def emptyPackage : PackageInfo :=
  { versions := [], info := fun _ => wheelInfo [] [] }

/-- Dependencies of the stable black releases in the snapshot fixture. -/
def blackDeps : List Requirement :=
  [req "click" [⟨Op.ge, ver [8]⟩],
   req "mypy-extensions" [⟨Op.ge, ver [0, 4, 3]⟩],
   req "packaging" [⟨Op.ge, ver [22]⟩],
   req "pathspec" [⟨Op.ge, ver [0, 9]⟩],
   req "platformdirs" [⟨Op.ge, ver [2]⟩]]

/-- Package data of the black snapshot fixture, mirroring the pypi state
the sampled tests pin with `exclude_newer`: black has stable releases
23.9.1 and 23.9.0 and pre-releases 20.8b1 and 19.10b0; the transitive
dependencies each have one or two wheel releases; `mypy-extensions`
additionally declares an extras table entry `extra` pulling in
`extradep`. -/
def blackPackage (p : String) : PackageInfo :=
  if p == "black" then
    { versions := [ver [23, 9, 1], ver [23, 9, 0], preVer [20, 8] 1,
        preVer [19, 10] 0]
      info := fun v => if v.isPre then wheelInfo [] [] else wheelInfo blackDeps [] }
  else if p == "click" then
    { versions := [ver [8, 1, 7]], info := fun _ => wheelInfo [] [] }
  else if p == "mypy-extensions" then
    { versions := [ver [1, 0, 0], ver [0, 4, 3]]
      info := fun _ => wheelInfo [] [("extra", [req "extradep" []])] }
  else if p == "packaging" then
    { versions := [ver [23, 2]], info := fun _ => wheelInfo [] [] }
  else if p == "pathspec" then
    { versions := [ver [0, 11, 2]], info := fun _ => wheelInfo [] [] }
  else if p == "platformdirs" then
    { versions := [ver [4, 0, 0]], info := fun _ => wheelInfo [] [] }
  else if p == "extradep" then
    { versions := [ver [1, 0]], info := fun _ => wheelInfo [] [] }
  else emptyPackage

/-- Index fixture for the black scenarios. -/
def blackIndex : Index :=
  { packages := ["black", "click", "mypy-extensions", "packaging",
      "pathspec", "platformdirs", "extradep"]
    get := blackPackage }

/-- Package data of the pylint/isort fixture: pylint 2.3.0 depending on
isort, astroid and mccabe; isort with a stable 5.12.0, a pre-release
5.13.0b1 above it, and an older 4.3.21. -/
def pylintPackage (p : String) : PackageInfo :=
  if p == "pylint" then
    { versions := [ver [2, 3, 0]]
      info := fun _ => wheelInfo
        [req "isort" [⟨Op.ge, ver [4, 2, 5]⟩],
         req "astroid" [⟨Op.ge, ver [2, 2]⟩],
         req "mccabe" []] [] }
  else if p == "isort" then
    { versions := [ver [5, 12, 0], preVer [5, 13, 0] 1, ver [4, 3, 21]]
      info := fun _ => wheelInfo [] [] }
  else if p == "astroid" then
    { versions := [ver [2, 2, 5]], info := fun _ => wheelInfo [] [] }
  else if p == "mccabe" then
    { versions := [ver [0, 6, 1]], info := fun _ => wheelInfo [] [] }
  else emptyPackage

/-- Index fixture for the pylint/isort Explicit-mode scenarios. -/
def pylintIndex : Index :=
  { packages := ["pylint", "isort", "astroid", "mccabe"]
    get := pylintPackage }

/-- Small index on which narrowing a constraint shifts a version and
thereby brings in another package: `a` 2.0 has no dependencies while
`a` 1.0 depends on `b`. -/
def shiftPackage (p : String) : PackageInfo :=
  if p == "a" then
    { versions := [ver [2], ver [1]]
      info := fun v => if v == ver [1] then wheelInfo [req "b" []] []
        else wheelInfo [] [] }
  else if p == "b" then
    { versions := [ver [1]], info := fun _ => wheelInfo [] [] }
  else emptyPackage

/-- Index fixture for the constraint-monotonicity counterexample. -/
def shiftIndex : Index :=
  { packages := ["a", "b"], get := shiftPackage }

/-- Index with a single package whose only release is a pre-release,
instantiating the `IfNecessary` admission rule. -/
def preOnlyIndex : Index :=
  { packages := ["preonly"]
    get := fun p =>
      if p == "preonly" then
        { versions := [preVer [1] 0], info := fun _ => wheelInfo [] [] }
      else emptyPackage }

/-- Default options of the sampled tests: highest mode, `IfNecessary`
pre-releases, the pinned cutoff. -/
def defaultOptions : ResolutionOptions :=
  { mode := ResolutionMode.highest
    prerelease := PreReleaseMode.ifNecessary
    excludeNewer := some 100 }

/-- Options with a given pre-release mode, otherwise default. -/
def optionsWithPre (pm : PreReleaseMode) : ResolutionOptions :=
  { mode := ResolutionMode.highest, prerelease := pm, excludeNewer := some 100 }

/-- Manifest with roots only. -/
def manifestOf (rs : List Requirement) : Manifest :=
  { requirements := rs, constraints := [], preferences := [] }

/-- Root requirement `black<=23.9.1`. -/
def blackRootLe2391 : Requirement := req "black" [⟨Op.le, ver [23, 9, 1]⟩]

/-- Root requirement `black<=20.0`. -/
def blackRootLe20 : Requirement := req "black" [⟨Op.le, ver [20, 0]⟩]

/-- Build context used to instantiate concrete runs: the test harness's
panicking stub around an arbitrary fixed interpreter. -/
def testCtx : BuildContext := DummyContext VenvModel.sampleInterpreter

/-- A context whose every method returns a value, for contrasting with
the panicking stub. -/
def pureCtx : BuildContext :=
  { cache := CtxResult.value "cache"
    interpreter := CtxResult.value VenvModel.sampleInterpreter
    base_python := CtxResult.value "/usr/bin/python3.11"
    resolve := CtxResult.value []
    install := CtxResult.value ()
    build_source := CtxResult.value "wheel" }

/-- Names of the packages a given release can contribute to the graph:
its base dependencies and all extra dependencies. -/
def nodeDepNames (idx : Index) (q : String) (v : Version) : List String :=
  (((idx.get q).info v).deps ++
    ((idx.get q).info v).optionalDeps.flatMap Prod.snd).map Requirement.name

/-- Provenance of a package name during solving: it is a root name, or a
dependency (base or extra) of some assigned release as reported by the
metadata provider. -/
def OriginOk (depsOf : String → Version → Except ResolutionError Metadata)
    (rootNames : List String) (assigned : List (String × Version))
    (p : String) : Prop :=
  p ∈ rootNames ∨ ∃ qv ∈ assigned, ∃ md, depsOf qv.1 qv.2 = Except.ok md ∧
    p ∈ (md.1 ++ md.2.flatMap Prod.snd).map Requirement.name

/-- The black fixture with its version list delivered in a different
(network-determined) order; metadata is unchanged. -/
def blackPackageShuffled (p : String) : PackageInfo :=
  if p == "black" then
    { versions := [preVer [19, 10] 0, ver [23, 9, 0], ver [23, 9, 1],
        preVer [20, 8] 1]
      info := (blackPackage "black").info }
  else blackPackage p

/-- Index fixture equal to `blackIndex` up to per-package version-list
order. -/
def blackIndexShuffled : Index :=
  { packages := ["black", "click", "mypy-extensions", "packaging",
      "pathspec", "platformdirs", "extradep"]
    get := blackPackageShuffled }

end ResolverModel

namespace VenvModel

theorem lookup_setEntry_self (fs : Fs) (p : FsPath) (n : FsNode) :
    (fs.setEntry p n).lookup p = some n := by
  simp [Fs.setEntry, Fs.lookup]

theorem lookup_filter_key_ne (fs : Fs) (p q : FsPath) (h : ¬ p = q) :
    Fs.lookup (fs.filter (fun e => !(e.1 == p))) q = fs.lookup q := by
  induction fs with
  | nil => rfl
  | cons e rest ih =>
    by_cases hep : e.1 = p
    · have hne : ¬ e.1 = q := fun hc => h (hep ▸ hc)
      rw [List.filter_cons_of_neg (by simp [hep])]
      rw [ih]
      simp [Fs.lookup, hne]
    · rw [List.filter_cons_of_pos (by simp [hep])]
      by_cases heq : e.1 = q
      · simp [Fs.lookup, heq]
      · simp [Fs.lookup, heq, ih]

theorem lookup_setEntry_ne (fs : Fs) (p q : FsPath) (n : FsNode) (h : ¬ p = q) :
    (fs.setEntry p n).lookup q = fs.lookup q := by
  simp only [Fs.setEntry, Fs.lookup]
  have : (p == q) = false := by simp [h]
  simp [this, lookup_filter_key_ne fs p q h]

theorem lookup_cons (e : FsPath × FsNode) (rest : Fs) (q : FsPath) :
    Fs.lookup (e :: rest) q = if e.1 = q then some e.2 else Fs.lookup rest q := by
  show (if e.1 == q then some e.2 else Fs.lookup rest q) = _
  by_cases h : e.1 = q
  · simp [h]
  · simp [h]

theorem existsPath_of_lookup_some (fs : Fs) (q : FsPath) (n : FsNode)
    (h : fs.lookup q = some n) : fs.existsPath q = true := by
  induction fs with
  | nil => simp [Fs.lookup] at h
  | cons e rest ih =>
    rw [lookup_cons] at h
    by_cases heq : e.1 = q
    · simp [Fs.existsPath, heq]
    · rw [if_neg heq] at h
      have := ih h
      simp [Fs.existsPath] at this ⊢
      exact Or.inr this

theorem lookup_addDirIfMissing_some (fs : Fs) (p q : FsPath) (n : FsNode)
    (h : fs.lookup q = some n) : (fs.addDirIfMissing p).lookup q = some n := by
  unfold Fs.addDirIfMissing
  by_cases hex : fs.existsPath p = true
  · simp [hex, h]
  · simp only [hex]
    by_cases hpq : p = q
    · subst hpq
      exact absurd (existsPath_of_lookup_some fs p n h) hex
    · simp only [if_neg hex, Fs.lookup]
      simp [hpq, h]

theorem lookup_foldDirs_some (l : List FsPath) :
    ∀ (fs : Fs) (q : FsPath) (n : FsNode), fs.lookup q = some n →
      (l.foldl Fs.addDirIfMissing fs).lookup q = some n := by
  induction l with
  | nil => intro fs q n h; exact h
  | cons a l ih =>
    intro fs q n h
    simp only [List.foldl_cons]
    exact ih _ q n (lookup_addDirIfMissing_some fs a q n h)

theorem lookup_createDirAll_some (fs : Fs) (p q : FsPath) (n : FsNode)
    (h : fs.lookup q = some n) : (fs.createDirAll p).lookup q = some n :=
  lookup_foldDirs_some (ancestorsOf p) fs q n h

theorem existsPath_setEntry_self (fs : Fs) (p : FsPath) (n : FsNode) :
    (fs.setEntry p n).existsPath p = true := by
  simp [Fs.setEntry, Fs.existsPath]

theorem existsPath_iff (fs : Fs) (q : FsPath) :
    fs.existsPath q = true ↔ ∃ e ∈ fs, e.1 = q := by
  simp [Fs.existsPath, List.any_eq_true]

theorem existsPath_setEntry_mono (fs : Fs) (p q : FsPath) (n : FsNode)
    (h : fs.existsPath q = true) : (fs.setEntry p n).existsPath q = true := by
  by_cases hpq : p = q
  · subst hpq; exact existsPath_setEntry_self fs p n
  · rcases (existsPath_iff fs q).mp h with ⟨e, he, hq⟩
    refine (existsPath_iff _ q).mpr ⟨e, ?_, hq⟩
    refine List.mem_cons.mpr (Or.inr ?_)
    refine List.mem_filter.mpr ⟨he, ?_⟩
    simp [hq]
    intro hc
    exact hpq hc.symm

theorem existsPath_addDirIfMissing_mono (fs : Fs) (p q : FsPath)
    (h : fs.existsPath q = true) : (fs.addDirIfMissing p).existsPath q = true := by
  unfold Fs.addDirIfMissing
  by_cases hex : fs.existsPath p = true
  · simp [hex, h]
  · simp only [hex, if_neg]
    simp [Fs.existsPath] at h ⊢
    exact Or.inr h

theorem existsPath_addDirIfMissing_self (fs : Fs) (p : FsPath) :
    (fs.addDirIfMissing p).existsPath p = true := by
  unfold Fs.addDirIfMissing
  by_cases hex : fs.existsPath p = true
  · simp [hex]
  · rw [if_neg]
    · exact (existsPath_iff _ p).mpr ⟨(p, FsNode.dir), List.mem_cons_self _ _, rfl⟩
    · exact hex

theorem existsPath_foldDirs_mono (l : List FsPath) :
    ∀ (fs : Fs) (q : FsPath), fs.existsPath q = true →
      (l.foldl Fs.addDirIfMissing fs).existsPath q = true := by
  induction l with
  | nil => intro fs q h; exact h
  | cons a l ih =>
    intro fs q h
    simp only [List.foldl_cons]
    exact ih _ q (existsPath_addDirIfMissing_mono fs a q h)

theorem existsPath_foldDirs_mem (l : List FsPath) :
    ∀ (fs : Fs) (q : FsPath), q ∈ l →
      (l.foldl Fs.addDirIfMissing fs).existsPath q = true := by
  induction l with
  | nil => intro fs q h; simp at h
  | cons a l ih =>
    intro fs q h
    simp only [List.foldl_cons]
    rcases List.mem_cons.mp h with h | h
    · subst h
      exact existsPath_foldDirs_mono l _ q (existsPath_addDirIfMissing_self fs q)
    · exact ih _ q h

theorem self_mem_ancestorsOf (p : FsPath) (h : p ≠ []) : p ∈ ancestorsOf p := by
  have hlen : 0 < p.length := List.length_pos.mpr h
  unfold ancestorsOf
  refine List.mem_map.mpr ⟨p.length - 1, ?_, ?_⟩
  · exact List.mem_range.mpr (by omega)
  · have : p.length - 1 + 1 = p.length := by omega
    rw [this, List.take_length]

theorem existsPath_createDirAll_self (fs : Fs) (p : FsPath) (h : p ≠ []) :
    (fs.createDirAll p).existsPath p = true :=
  existsPath_foldDirs_mem (ancestorsOf p) fs p (self_mem_ancestorsOf p h)

theorem existsPath_createDirAll_mono (fs : Fs) (p q : FsPath)
    (h : fs.existsPath q = true) : (fs.createDirAll p).existsPath q = true :=
  existsPath_foldDirs_mono (ancestorsOf p) fs q h

theorem append_ne_right (base : FsPath) {l₁ l₂ : FsPath} (h : l₁ ≠ l₂) :
    ¬ base ++ l₁ = base ++ l₂ :=
  fun hc => h (List.append_cancel_left hc)

theorem toDigitsCore_ne_nil (b : Nat) :
    ∀ (f n : Nat) (ds : List Char), ds ≠ [] → Nat.toDigitsCore b f n ds ≠ [] := by
  intro f
  induction f with
  | zero => intro n ds h; simpa [Nat.toDigitsCore] using h
  | succ f ih =>
    intro n ds h
    simp only [Nat.toDigitsCore]
    by_cases hz : n / b = 0
    · simp [hz]
    · simp only [hz, if_neg]
      exact ih (n / b) _ (by simp)

theorem toDigits_ne_nil (b n : Nat) : Nat.toDigits b n ≠ [] := by
  unfold Nat.toDigits
  simp only [Nat.toDigitsCore]
  by_cases hz : n / b = 0
  · simp [hz]
  · simp only [hz, if_neg]
    exact toDigitsCore_ne_nil b n (n / b) _ (by simp)

theorem natToString_ne_empty (n : Nat) : toString n ≠ "" := by
  show Nat.repr n ≠ ""
  unfold Nat.repr
  intro h
  apply toDigits_ne_nil 10 n
  have := congrArg String.data h
  simpa [List.asString] using this

theorem eq_empty_of_length_zero (s : String) (h : s.length = 0) : s = "" := by
  cases s with
  | mk data =>
    have hd : data = [] := List.length_eq_zero.mp h
    simp [hd]

theorem pythonMajName_ne_python (n : Nat) : "python" ++ toString n ≠ "python" := by
  intro h
  have hlen := congrArg String.length h
  rw [String.length_append] at hlen
  have hz : (toString n).length = 0 := by
    have : ("python" : String).length = 6 := by decide
    omega
  exact natToString_ne_empty n (eq_empty_of_length_zero _ hz)

theorem pythonDirName_ne_python (interp : Interpreter) :
    pythonDirName interp ≠ "python" := by
  intro h
  have hlen := congrArg String.length h
  unfold pythonDirName at hlen
  rw [String.length_append, String.length_append, String.length_append] at hlen
  have h6 : ("python" : String).length = 6 := by decide
  have h1 : ("." : String).length = 1 := by decide
  omega

theorem createVenvFiles_ok (fs : Fs) (loc : FsPath) (interp : Interpreter)
    (ph : String) (hph : parentDir interp.sys_executable = some ph) :
    ∃ fs' paths, createVenvFiles fs loc interp = Except.ok (fs', paths) ∧
      paths.root = loc ∧
      paths.bin = loc ++ ["bin"] ∧
      paths.interpreter = loc ++ ["bin", "python"] ∧
      paths.site_packages = loc ++ ["lib", pythonDirName interp, "site-packages"] ∧
      fs'.lookup (loc ++ ["pyvenv.cfg"]) =
        some (FsNode.file (write_cfg
          (pyvenv_cfg_data interp ph interp.sys_executable))) ∧
      fs'.lookup (loc ++ ["bin", "python"]) =
        some (FsNode.symlink interp.sys_executable) ∧
      (loc ≠ [] → fs'.existsPath loc = true) ∧
      fs'.existsPath (loc ++ ["bin"]) = true ∧
      fs'.existsPath (loc ++ ["bin", "python"]) = true ∧
      fs'.existsPath (loc ++ ["lib", pythonDirName interp, "site-packages"]) = true := by
  simp only [createVenvFiles, hph]
  refine ⟨_, _, rfl, rfl, rfl, by simp, rfl, ?_, ?_, ?_, ?_, ?_, ?_⟩
  · -- lookup of pyvenv.cfg through the two site-packages writes and createDirAll
    rw [lookup_setEntry_ne _ _ _ _ (by
      rw [List.append_assoc]
      exact append_ne_right loc (by simp))]
    rw [lookup_setEntry_ne _ _ _ _ (by
      rw [List.append_assoc]
      exact append_ne_right loc (by simp))]
    apply lookup_createDirAll_some
    exact lookup_setEntry_self _ _ _
  · -- lookup of the interpreter symlink
    rw [lookup_setEntry_ne _ _ _ _ (by
      rw [List.append_assoc]
      exact append_ne_right loc (by simp))]
    rw [lookup_setEntry_ne _ _ _ _ (by
      rw [List.append_assoc]
      exact append_ne_right loc (by simp))]
    apply lookup_createDirAll_some
    rw [lookup_setEntry_ne _ _ _ _ (append_ne_right loc (by simp))]
    simp only [activateTemplateNames, List.foldl_cons, List.foldl_nil]
    rw [lookup_setEntry_ne _ _ _ _ (by
      rw [List.append_assoc]
      exact append_ne_right loc (by simp))]
    rw [lookup_setEntry_ne _ _ _ _ (by
      rw [List.append_assoc]
      exact append_ne_right loc (by simp))]
    rw [lookup_setEntry_ne _ _ _ _ (by
      rw [List.append_assoc]
      exact append_ne_right loc (by simp))]
    rw [lookup_setEntry_ne _ _ _ _ (by
      rw [List.append_assoc]
      exact append_ne_right loc (by simp))]
    rw [lookup_setEntry_ne _ _ _ _ (by
      rw [List.append_assoc]
      exact append_ne_right loc (by simp))]
    rw [lookup_setEntry_ne _ _ _ _ (by
      rw [List.append_assoc]
      exact append_ne_right loc (by simp))]
    rw [lookup_setEntry_ne _ _ _ _ (by
      rw [List.append_assoc]
      refine append_ne_right loc ?_
      intro h
      simp at h
      exact pythonDirName_ne_python interp h)]
    rw [lookup_setEntry_ne _ _ _ _ (by
      rw [List.append_assoc]
      refine append_ne_right loc ?_
      intro h
      simp at h
      exact pythonMajName_ne_python interp.simple_version.1 h)]
    rw [show (loc ++ ["bin"]) ++ ["python"] = loc ++ ["bin", "python"] by simp]
    exact lookup_setEntry_self _ _ _
  · -- the location itself exists (when nonempty)
    intro hne
    apply existsPath_setEntry_mono
    apply existsPath_setEntry_mono
    apply existsPath_createDirAll_mono
    apply existsPath_setEntry_mono
    simp only [activateTemplateNames, List.foldl_cons, List.foldl_nil]
    apply existsPath_setEntry_mono
    apply existsPath_setEntry_mono
    apply existsPath_setEntry_mono
    apply existsPath_setEntry_mono
    apply existsPath_setEntry_mono
    apply existsPath_setEntry_mono
    apply existsPath_setEntry_mono
    apply existsPath_setEntry_mono
    apply existsPath_setEntry_mono
    apply existsPath_setEntry_mono
    apply existsPath_setEntry_mono
    exact existsPath_createDirAll_self fs loc hne
  · -- the bin directory exists
    apply existsPath_setEntry_mono
    apply existsPath_setEntry_mono
    apply existsPath_createDirAll_mono
    apply existsPath_setEntry_mono
    simp only [activateTemplateNames, List.foldl_cons, List.foldl_nil]
    apply existsPath_setEntry_mono
    apply existsPath_setEntry_mono
    apply existsPath_setEntry_mono
    apply existsPath_setEntry_mono
    apply existsPath_setEntry_mono
    apply existsPath_setEntry_mono
    apply existsPath_setEntry_mono
    apply existsPath_setEntry_mono
    apply existsPath_setEntry_mono
    exact existsPath_setEntry_self _ _ _
  · -- the interpreter path exists
    apply existsPath_setEntry_mono
    apply existsPath_setEntry_mono
    apply existsPath_createDirAll_mono
    apply existsPath_setEntry_mono
    simp only [activateTemplateNames, List.foldl_cons, List.foldl_nil]
    apply existsPath_setEntry_mono
    apply existsPath_setEntry_mono
    apply existsPath_setEntry_mono
    apply existsPath_setEntry_mono
    apply existsPath_setEntry_mono
    apply existsPath_setEntry_mono
    apply existsPath_setEntry_mono
    apply existsPath_setEntry_mono
    rw [show loc ++ ["bin", "python"] = (loc ++ ["bin"]) ++ ["python"] by simp]
    exact existsPath_setEntry_self _ _ _
  · -- the site-packages directory exists
    apply existsPath_setEntry_mono
    apply existsPath_setEntry_mono
    exact existsPath_createDirAll_self _ _ (by simp)

end VenvModel

namespace VenvModel

theorem createVenvFiles_layout (fs0 : Fs) (loc : FsPath) (interp : Interpreter)
    (fs' : Fs) (paths : VenvPaths) (hne : loc ≠ [])
    (h : createVenvFiles fs0 loc interp = Except.ok (fs', paths)) :
    paths.root = loc ∧ paths.bin = loc ++ ["bin"] ∧
    paths.interpreter = loc ++ ["bin", "python"] ∧
    paths.site_packages = loc ++ ["lib", pythonDirName interp, "site-packages"] ∧
    fs'.lookup (loc ++ ["bin", "python"]) =
      some (FsNode.symlink interp.sys_executable) ∧
    fs'.existsPath loc = true ∧
    fs'.existsPath (loc ++ ["bin"]) = true ∧
    fs'.existsPath (loc ++ ["bin", "python"]) = true ∧
    fs'.existsPath (loc ++ ["lib", pythonDirName interp, "site-packages"]) = true := by
  cases hph : parentDir interp.sys_executable with
  | none =>
    rw [show createVenvFiles fs0 loc interp = Except.error (VenvError.notFound
      "The python interpreter needs to have a parent directory") by
        simp [createVenvFiles, hph]] at h
    exact absurd h (by simp)
  | some ph =>
    obtain ⟨fs1, paths1, heq, hroot, hbin, hinterp, hsite, _hcfg, hlook,
      hexloc, hexbin, hexpy, hexsp⟩ := createVenvFiles_ok fs0 loc interp ph hph
    rw [heq] at h
    have hfs : fs1 = fs' := congrArg Prod.fst (Except.ok.inj h)
    have hpa : paths1 = paths := congrArg Prod.snd (Except.ok.inj h)
    subst hfs; subst hpa
    exact ⟨hroot, hbin, hinterp, hsite, hlook, hexloc hne, hexbin, hexpy, hexsp⟩

end VenvModel

/-- Claim C9: `create_bare_venv` on an existing location is guarded by the
presence of a `pyvenv.cfg` file — if the location exists and carries a
`pyvenv.cfg` file, the whole directory is removed and the venv is
recreated from scratch; if it exists without one, the call returns an
AlreadyExists error (and, the model being functional, the input
filesystem is untouched). -/
theorem VenvModel.create_bare_venv_existing_guard :
    ∀ (fs : VenvModel.Fs) (loc : VenvModel.FsPath) (interp : VenvModel.Interpreter),
      (fs.existsPath loc = true →
        fs.isFile (loc ++ ["pyvenv.cfg"]) = true →
        VenvModel.create_bare_venv fs loc interp =
          VenvModel.createVenvFiles (fs.removeDirAll loc) loc interp) ∧
      (fs.existsPath loc = true →
        fs.isFile (loc ++ ["pyvenv.cfg"]) = false →
        VenvModel.create_bare_venv fs loc interp =
          Except.error (VenvModel.VenvError.alreadyExists
            ("The directory " ++ VenvModel.renderPath loc ++
              " exists, but it is not virtualenv"))) := by
  intro fs loc interp
  constructor
  · intro h1 h2
    simp [VenvModel.create_bare_venv, h1, h2]
  · intro h1 h2
    simp [VenvModel.create_bare_venv, h1, h2]

/-- Witness for C9: on a directory holding a `pyvenv.cfg` the venv is
rebuilt after removal; on a plain directory the call errors. -/
theorem VenvModel.create_bare_venv_existing_guard_witness :
    VenvModel.create_bare_venv VenvModel.fsWithCfg [".venv"] VenvModel.sampleInterpreter =
      VenvModel.createVenvFiles (VenvModel.fsWithCfg.removeDirAll [".venv"]) [".venv"]
        VenvModel.sampleInterpreter ∧
    VenvModel.create_bare_venv VenvModel.fsPlainDir [".venv"] VenvModel.sampleInterpreter =
      Except.error (VenvModel.VenvError.alreadyExists
        ("The directory " ++ VenvModel.renderPath [".venv"] ++
          " exists, but it is not virtualenv")) :=
  ⟨(VenvModel.create_bare_venv_existing_guard VenvModel.fsWithCfg [".venv"]
      VenvModel.sampleInterpreter).1 (by decide) (by decide),
   (VenvModel.create_bare_venv_existing_guard VenvModel.fsPlainDir [".venv"]
      VenvModel.sampleInterpreter).2 (by decide) (by decide)⟩

/-- Claim C2 counterexample: the pyvenv.cfg actually written by
`create_bare_venv` carries an eighth key `gourgeist` (the crate version),
so its key set is not the seven-key list the claim states. -/
theorem VenvModel.pyvenv_cfg_keys_counterexample :
    VenvModel.pyvenvCfgKeys VenvModel.sampleInterpreter "/usr/bin" "/usr/bin/python3.11" ≠
      ["home", "implementation", "version_info", "include-system-site-packages",
       "base-prefix", "base-exec-prefix", "base-executable"] ∧
    "gourgeist" ∈ VenvModel.pyvenvCfgKeys VenvModel.sampleInterpreter "/usr/bin"
      "/usr/bin/python3.11" ∧
    (VenvModel.create_bare_venv [] [".venv"] VenvModel.sampleInterpreter).toOption.map
        (fun r => r.1.lookup [".venv", "pyvenv.cfg"]) =
      some (some (VenvModel.FsNode.file (VenvModel.write_cfg
        (VenvModel.pyvenv_cfg_data VenvModel.sampleInterpreter "/usr/bin"
          "/usr/bin/python3.11")))) := by
  refine ⟨by decide, by decide, by rfl⟩

/-- Claim C2 (amended): for every interpreter whose executable has a
parent directory and every fresh location, the pyvenv.cfg written by
`create_bare_venv` consists of one `key = value` line per entry and its
keys are exactly `home`, `implementation`, `version_info`, `gourgeist`
(the crate version), `include-system-site-packages` (value `false`),
`base-prefix`, `base-exec-prefix`, and `base-executable`, in that
order. -/
theorem VenvModel.pyvenv_cfg_written_contents :
    ∀ (fs : VenvModel.Fs) (loc : VenvModel.FsPath) (interp : VenvModel.Interpreter)
      (ph : String),
      VenvModel.parentDir interp.sys_executable = some ph →
      fs.existsPath loc = false →
      ∃ fs' paths,
        VenvModel.create_bare_venv fs loc interp = Except.ok (fs', paths) ∧
        fs'.lookup (loc ++ ["pyvenv.cfg"]) =
          some (VenvModel.FsNode.file (VenvModel.write_cfg
            (VenvModel.pyvenv_cfg_data interp ph interp.sys_executable))) ∧
        (VenvModel.pyvenv_cfg_data interp ph interp.sys_executable).map Prod.fst =
          ["home", "implementation", "version_info", "gourgeist",
           "include-system-site-packages", "base-prefix", "base-exec-prefix",
           "base-executable"] ∧
        (VenvModel.pyvenv_cfg_data interp ph interp.sys_executable).map Prod.snd =
          [ph, "CPython", interp.python_version_string, VenvModel.cargo_pkg_version,
           "false", interp.basePrefixPath, interp.baseExecPrefixPath,
           interp.sys_executable] ∧
        (∀ (k v : String) (rest : List (String × String)),
          VenvModel.write_cfg ((k, v) :: rest) =
            k ++ " = " ++ v ++ "\n" ++ VenvModel.write_cfg rest) := by
  intro fs loc interp ph hph hex
  have hguard : VenvModel.create_bare_venv fs loc interp =
      VenvModel.createVenvFiles fs loc interp := by
    simp [VenvModel.create_bare_venv, hex]
  obtain ⟨fs', paths, heq, _, _, _, _, hcfg, _⟩ :=
    VenvModel.createVenvFiles_ok fs loc interp ph hph
  refine ⟨fs', paths, ?_, hcfg, rfl, rfl, fun k v rest => rfl⟩
  rw [hguard, heq]

/-- Witness for the amended C2 at the sample interpreter and a fresh
`.venv` location. -/
theorem VenvModel.pyvenv_cfg_written_contents_witness :
    ∃ fs' paths,
      VenvModel.create_bare_venv [] [".venv"] VenvModel.sampleInterpreter =
        Except.ok (fs', paths) ∧
      fs'.lookup ([".venv"] ++ ["pyvenv.cfg"]) =
        some (VenvModel.FsNode.file (VenvModel.write_cfg
          (VenvModel.pyvenv_cfg_data VenvModel.sampleInterpreter "/usr/bin"
            VenvModel.sampleInterpreter.sys_executable))) ∧
      (VenvModel.pyvenv_cfg_data VenvModel.sampleInterpreter "/usr/bin"
          VenvModel.sampleInterpreter.sys_executable).map Prod.fst =
        ["home", "implementation", "version_info", "gourgeist",
         "include-system-site-packages", "base-prefix", "base-exec-prefix",
         "base-executable"] ∧
      (VenvModel.pyvenv_cfg_data VenvModel.sampleInterpreter "/usr/bin"
          VenvModel.sampleInterpreter.sys_executable).map Prod.snd =
        ["/usr/bin", "CPython", VenvModel.sampleInterpreter.python_version_string,
         VenvModel.cargo_pkg_version, "false",
         VenvModel.sampleInterpreter.basePrefixPath,
         VenvModel.sampleInterpreter.baseExecPrefixPath,
         VenvModel.sampleInterpreter.sys_executable] ∧
      (∀ (k v : String) (rest : List (String × String)),
        VenvModel.write_cfg ((k, v) :: rest) =
          k ++ " = " ++ v ++ "\n" ++ VenvModel.write_cfg rest) :=
  VenvModel.pyvenv_cfg_written_contents [] [".venv"] VenvModel.sampleInterpreter
    "/usr/bin" (by decide) (by decide)

/-- Claim C10: on unix, every successful `create_bare_venv` call returns
paths in a fixed layout relative to the (canonicalized, here nonempty)
location L — root = L, bin = L/bin, interpreter = L/bin/python (a symlink
to the base interpreter's `sys_executable`), and site_packages =
L/lib/python{major}.{minor}/site-packages — and all four paths exist in
the resulting filesystem. -/
theorem VenvModel.create_bare_venv_layout :
    ∀ (fs : VenvModel.Fs) (loc : VenvModel.FsPath) (interp : VenvModel.Interpreter)
      (fs' : VenvModel.Fs) (paths : VenvModel.VenvPaths),
      loc ≠ [] →
      VenvModel.create_bare_venv fs loc interp = Except.ok (fs', paths) →
      paths.root = loc ∧
      paths.bin = loc ++ ["bin"] ∧
      paths.interpreter = loc ++ ["bin", "python"] ∧
      paths.site_packages =
        loc ++ ["lib", VenvModel.pythonDirName interp, "site-packages"] ∧
      fs'.lookup (loc ++ ["bin", "python"]) =
        some (VenvModel.FsNode.symlink interp.sys_executable) ∧
      fs'.existsPath loc = true ∧
      fs'.existsPath (loc ++ ["bin"]) = true ∧
      fs'.existsPath (loc ++ ["bin", "python"]) = true ∧
      fs'.existsPath
        (loc ++ ["lib", VenvModel.pythonDirName interp, "site-packages"]) = true := by
  intro fs loc interp fs' paths hne h
  unfold VenvModel.create_bare_venv at h
  by_cases h1 : fs.existsPath loc = true
  · rw [if_pos h1] at h
    by_cases h2 : fs.isFile (loc ++ ["pyvenv.cfg"]) = true
    · rw [if_pos h2] at h
      exact VenvModel.createVenvFiles_layout _ loc interp fs' paths hne h
    · rw [if_neg h2] at h
      exact absurd h (by simp)
  · rw [if_neg h1] at h
    exact VenvModel.createVenvFiles_layout fs loc interp fs' paths hne h

/-- Witness for C10: the sample run on a fresh `.venv` location. -/
theorem VenvModel.create_bare_venv_layout_witness :
    VenvModel.sampleVenvRun =
      Except.ok (VenvModel.sampleVenvFs, VenvModel.sampleVenvPaths) ∧
    (VenvModel.sampleVenvPaths.root = [".venv"] ∧
      VenvModel.sampleVenvPaths.bin = [".venv"] ++ ["bin"] ∧
      VenvModel.sampleVenvPaths.interpreter = [".venv"] ++ ["bin", "python"] ∧
      VenvModel.sampleVenvPaths.site_packages =
        [".venv"] ++ ["lib", VenvModel.pythonDirName VenvModel.sampleInterpreter,
          "site-packages"] ∧
      VenvModel.sampleVenvFs.lookup ([".venv"] ++ ["bin", "python"]) =
        some (VenvModel.FsNode.symlink VenvModel.sampleInterpreter.sys_executable) ∧
      VenvModel.sampleVenvFs.existsPath [".venv"] = true ∧
      VenvModel.sampleVenvFs.existsPath ([".venv"] ++ ["bin"]) = true ∧
      VenvModel.sampleVenvFs.existsPath ([".venv"] ++ ["bin", "python"]) = true ∧
      VenvModel.sampleVenvFs.existsPath
        ([".venv"] ++ ["lib", VenvModel.pythonDirName VenvModel.sampleInterpreter,
          "site-packages"]) = true) :=
  have h : VenvModel.create_bare_venv [] [".venv"] VenvModel.sampleInterpreter =
      Except.ok (VenvModel.sampleVenvFs, VenvModel.sampleVenvPaths) := by rfl
  ⟨h, VenvModel.create_bare_venv_layout [] [".venv"] VenvModel.sampleInterpreter
    VenvModel.sampleVenvFs VenvModel.sampleVenvPaths (by simp) h⟩

namespace ResolverModel

theorem cmpSegs_eq_iff : ∀ (a b : List Nat), cmpSegs a b = Ordering.eq ↔ a = b
  | [], [] => by simp [cmpSegs]
  | [], _ :: _ => by simp [cmpSegs]
  | _ :: _, [] => by simp [cmpSegs]
  | x :: xs, y :: ys => by
    simp only [cmpSegs]
    cases h : compare x y with
    | eq =>
      have hxy : x = y := Nat.compare_eq_eq.mp h
      simp [hxy, cmpSegs_eq_iff xs ys]
    | lt =>
      constructor
      · intro hc; exact absurd hc (by simp)
      · intro hc
        injection hc with h1 h2
        rw [h1, Nat.compare_eq_lt] at h
        exact absurd h (lt_irrefl y)
    | gt =>
      constructor
      · intro hc; exact absurd hc (by simp)
      · intro hc
        injection hc with h1 h2
        rw [h1, Nat.compare_eq_gt] at h
        exact absurd h (lt_irrefl y)

theorem cmpSegs_swap : ∀ (a b : List Nat), cmpSegs b a = (cmpSegs a b).swap
  | [], [] => by rfl
  | [], _ :: _ => by rfl
  | _ :: _, [] => by rfl
  | x :: xs, y :: ys => by
    simp only [cmpSegs]
    cases h : compare x y with
    | eq =>
      have hxy : x = y := Nat.compare_eq_eq.mp h
      subst hxy
      have hxx : compare x x = Ordering.eq := Nat.compare_eq_eq.mpr rfl
      simp [hxx, Ordering.swap, cmpSegs_swap xs ys]
    | lt =>
      have hyx : compare y x = Ordering.gt := Nat.compare_eq_gt.mpr (Nat.compare_eq_lt.mp h)
      simp [hyx, Ordering.swap]
    | gt =>
      have hyx : compare y x = Ordering.lt := Nat.compare_eq_lt.mpr (Nat.compare_eq_gt.mp h)
      simp [hyx, Ordering.swap]

theorem cmpSegs_lt_trans :
    ∀ (a b c : List Nat), cmpSegs a b = Ordering.lt → cmpSegs b c = Ordering.lt →
      cmpSegs a c = Ordering.lt
  | [], [], _ => by intro h1 _; exact absurd h1 (by simp [cmpSegs])
  | [], _ :: _, [] => by intro _ h2; exact absurd h2 (by simp [cmpSegs])
  | [], _ :: _, _ :: _ => by intro _ _; simp [cmpSegs]
  | _ :: _, [], _ => by intro h1 _; exact absurd h1 (by simp [cmpSegs])
  | x :: xs, y :: ys, [] => by intro _ h2; exact absurd h2 (by simp [cmpSegs])
  | x :: xs, y :: ys, z :: zs => by
    intro h1 h2
    simp only [cmpSegs] at h1 h2 ⊢
    cases hxy : compare x y with
    | eq =>
      have hxy' : x = y := Nat.compare_eq_eq.mp hxy
      subst hxy'
      rw [hxy] at h1
      cases hyz : compare x z with
      | eq =>
        rw [hyz] at h2
        exact cmpSegs_lt_trans xs ys zs h1 h2
      | lt => rfl
      | gt => rw [hyz] at h2; exact absurd h2 (by simp)
    | lt =>
      cases hyz : compare y z with
      | eq =>
        have hyz' : y = z := Nat.compare_eq_eq.mp hyz
        subst hyz'
        rw [hxy]
      | lt =>
        have hxz : compare x z = Ordering.lt :=
          Nat.compare_eq_lt.mpr
            (lt_trans (Nat.compare_eq_lt.mp hxy) (Nat.compare_eq_lt.mp hyz))
        rw [hxz]
      | gt => rw [hyz] at h2; exact absurd h2 (by simp)
    | gt => rw [hxy] at h1; exact absurd h1 (by simp)

theorem cmpPre_eq_iff (p q : Option Nat) : cmpPre p q = Ordering.eq ↔ p = q := by
  cases p with
  | none => cases q with
    | none => simp [cmpPre]
    | some b => simp [cmpPre]
  | some a => cases q with
    | none => simp [cmpPre]
    | some b => simp [cmpPre, Nat.compare_eq_eq]

theorem cmpPre_swap (p q : Option Nat) : cmpPre q p = (cmpPre p q).swap := by
  cases p with
  | none => cases q with
    | none => simp [cmpPre, Ordering.swap]
    | some b => simp [cmpPre, Ordering.swap]
  | some a => cases q with
    | none => simp [cmpPre, Ordering.swap]
    | some b =>
      simp only [cmpPre]
      cases h : compare a b with
      | eq =>
        have : a = b := Nat.compare_eq_eq.mp h
        subst this
        simp [Nat.compare_eq_eq.mpr rfl, Ordering.swap]
      | lt =>
        have : compare b a = Ordering.gt := Nat.compare_eq_gt.mpr (Nat.compare_eq_lt.mp h)
        simp [this, Ordering.swap]
      | gt =>
        have : compare b a = Ordering.lt := Nat.compare_eq_lt.mpr (Nat.compare_eq_gt.mp h)
        simp [this, Ordering.swap]

theorem cmpPre_lt_trans (p q r : Option Nat) (h1 : cmpPre p q = Ordering.lt)
    (h2 : cmpPre q r = Ordering.lt) : cmpPre p r = Ordering.lt := by
  cases p with
  | none =>
    cases q <;> simp [cmpPre] at h1
  | some a =>
    cases q with
    | none => cases r <;> simp [cmpPre] at h2
    | some b =>
      cases r with
      | none => simp [cmpPre]
      | some c =>
        simp only [cmpPre] at h1 h2 ⊢
        exact Nat.compare_eq_lt.mpr
          (lt_trans (Nat.compare_eq_lt.mp h1) (Nat.compare_eq_lt.mp h2))

theorem version_cmp_eq_iff (a b : Version) : Version.cmp a b = Ordering.eq ↔ a = b := by
  unfold Version.cmp
  cases h : cmpSegs a.release b.release with
  | eq =>
    have hrel : a.release = b.release := (cmpSegs_eq_iff _ _).mp h
    constructor
    · intro hc
      have hpre : a.pre = b.pre := (cmpPre_eq_iff _ _).mp hc
      have hmk : (⟨a.release, a.pre⟩ : Version) = ⟨b.release, b.pre⟩ := by
        rw [hrel, hpre]
      exact hmk
    · intro hc
      subst hc
      exact (cmpPre_eq_iff _ _).mpr rfl
  | lt =>
    constructor
    · intro hc; exact absurd hc (by simp)
    · intro hc
      subst hc
      rw [(cmpSegs_eq_iff a.release a.release).mpr rfl] at h
      exact absurd h (by simp)
  | gt =>
    constructor
    · intro hc; exact absurd hc (by simp)
    · intro hc
      subst hc
      rw [(cmpSegs_eq_iff a.release a.release).mpr rfl] at h
      exact absurd h (by simp)

theorem version_cmp_swap (a b : Version) : Version.cmp b a = (Version.cmp a b).swap := by
  unfold Version.cmp
  cases h : cmpSegs a.release b.release with
  | eq =>
    have h' : cmpSegs b.release a.release = Ordering.eq := by
      rw [cmpSegs_swap, h]; rfl
    simp only [h', h]
    exact cmpPre_swap a.pre b.pre
  | lt =>
    have h' : cmpSegs b.release a.release = Ordering.gt := by
      rw [cmpSegs_swap, h]; rfl
    simp only [h', h]
    rfl
  | gt =>
    have h' : cmpSegs b.release a.release = Ordering.lt := by
      rw [cmpSegs_swap, h]; rfl
    simp only [h', h]
    rfl

theorem version_cmp_lt_trans (a b c : Version) (h1 : Version.cmp a b = Ordering.lt)
    (h2 : Version.cmp b c = Ordering.lt) : Version.cmp a c = Ordering.lt := by
  unfold Version.cmp at h1 h2 ⊢
  cases hab : cmpSegs a.release b.release with
  | eq =>
    have hab' : a.release = b.release := (cmpSegs_eq_iff _ _).mp hab
    rw [hab] at h1
    cases hbc : cmpSegs b.release c.release with
    | eq =>
      have hbc' : b.release = c.release := (cmpSegs_eq_iff _ _).mp hbc
      rw [hbc] at h2
      have hac : cmpSegs a.release c.release = Ordering.eq :=
        (cmpSegs_eq_iff _ _).mpr (hab'.trans hbc')
      rw [hac]
      exact cmpPre_lt_trans _ _ _ h1 h2
    | lt =>
      have hac : cmpSegs a.release c.release = Ordering.lt := by rw [hab']; exact hbc
      rw [hac]
    | gt => rw [hbc] at h2; exact absurd h2 (by simp)
  | lt =>
    cases hbc : cmpSegs b.release c.release with
    | eq =>
      have hbc' : b.release = c.release := (cmpSegs_eq_iff _ _).mp hbc
      have hac : cmpSegs a.release c.release = Ordering.lt := by rw [← hbc']; exact hab
      rw [hac]
    | lt =>
      rw [cmpSegs_lt_trans _ _ _ hab hbc]
    | gt => rw [hbc] at h2; exact absurd h2 (by simp)
  | gt => rw [hab] at h1; exact absurd h1 (by simp)

theorem vleb_iff (a b : Version) : vleb a b = true ↔ Version.cmp a b ≠ Ordering.gt := by
  unfold vleb
  cases h : Version.cmp a b <;> simp

theorem cmp_gt_iff (a b : Version) :
    Version.cmp a b = Ordering.gt ↔ Version.cmp b a = Ordering.lt := by
  rw [version_cmp_swap a b]
  cases h : Version.cmp a b <;> simp [Ordering.swap]

theorem vle_total (a b : Version) : vle a b ∨ vle b a := by
  unfold vle
  rw [vleb_iff, vleb_iff]
  by_cases h : Version.cmp a b = Ordering.gt
  · right
    rw [cmp_gt_iff] at h
    simp [h]
  · left; exact h

theorem vle_trans (a b c : Version) (h1 : vle a b) (h2 : vle b c) : vle a c := by
  unfold vle at h1 h2 ⊢
  rw [vleb_iff] at h1 h2 ⊢
  intro hac
  cases hab : Version.cmp a b with
  | gt => exact h1 hab
  | eq =>
    have hab' : a = b := (version_cmp_eq_iff _ _).mp hab
    apply h2
    rw [← hab']
    exact hac
  | lt =>
    cases hbc : Version.cmp b c with
    | gt => exact h2 hbc
    | eq =>
      have hbc' : b = c := (version_cmp_eq_iff _ _).mp hbc
      apply h1
      rw [hbc']
      exact hac
    | lt =>
      have hax : Version.cmp a c = Ordering.lt := version_cmp_lt_trans a b c hab hbc
      rw [hax] at hac
      exact absurd hac (by simp)

theorem vle_antisymm (a b : Version) (h1 : vle a b) (h2 : vle b a) : a = b := by
  unfold vle at h1 h2
  rw [vleb_iff] at h1 h2
  cases h : Version.cmp a b with
  | eq => exact (version_cmp_eq_iff _ _).mp h
  | gt => exact absurd h h1
  | lt =>
    rw [← cmp_gt_iff] at h
    exact absurd h h2

theorem sortVersions_eq_of_perm (l₁ l₂ : List Version) (h : l₁.Perm l₂) :
    List.insertionSort vle l₁ = List.insertionSort vle l₂ := by
  have hs₁ : List.Sorted vle (List.insertionSort vle l₁) :=
    @List.sorted_insertionSort Version vle _ ⟨vle_total⟩ ⟨vle_trans⟩ l₁
  have hs₂ : List.Sorted vle (List.insertionSort vle l₂) :=
    @List.sorted_insertionSort Version vle _ ⟨vle_total⟩ ⟨vle_trans⟩ l₂
  exact @List.eq_of_perm_of_sorted Version vle ⟨vle_antisymm⟩ _ _
    ((List.perm_insertionSort vle l₁).trans
      (h.trans (List.perm_insertionSort vle l₂).symm)) hs₁ hs₂

end ResolverModel

namespace ResolverModel

theorem find?_congrOn {α : Type} (l : List α) (p q : α → Bool)
    (h : ∀ a ∈ l, p a = q a) : l.find? p = l.find? q := by
  induction l with
  | nil => rfl
  | cons a l ih =>
    rw [List.find?_cons, List.find?_cons, h a (List.mem_cons_self a l)]
    cases hq : q a with
    | true => rfl
    | false => exact ih (fun b hb => h b (List.mem_cons_of_mem a hb))

theorem any_perm {α : Type} {l₁ l₂ : List α} (h : l₁.Perm l₂) (f : α → Bool) :
    l₁.any f = l₂.any f := by
  cases hb : l₂.any f with
  | true =>
    simp only [List.any_eq_true] at hb ⊢
    obtain ⟨x, hx, hfx⟩ := hb
    exact ⟨x, h.mem_iff.mpr hx, hfx⟩
  | false =>
    simp only [List.any_eq_false] at hb ⊢
    intro x hx
    exact hb x (h.mem_iff.mp hx)

theorem all_perm {α : Type} {l₁ l₂ : List α} (h : l₁.Perm l₂) (f : α → Bool) :
    l₁.all f = l₂.all f := by
  cases hb : l₂.all f with
  | true =>
    simp only [List.all_eq_true] at hb ⊢
    intro x hx
    exact hb x (h.mem_iff.mp hx)
  | false =>
    simp only [List.all_eq_false] at hb ⊢
    obtain ⟨x, hx, hfx⟩ := hb
    exact ⟨x, h.mem_iff.mpr hx, hfx⟩

theorem flatMap_perm_congr {α β : Type} (l : List α) (f g : α → List β)
    (h : ∀ a ∈ l, (f a).Perm (g a)) : (l.flatMap f).Perm (l.flatMap g) := by
  induction l with
  | nil => exact List.Perm.refl _
  | cons a l ih =>
    simp only [List.flatMap_cons]
    exact (h a (List.mem_cons_self a l)).append
      (ih (fun b hb => h b (List.mem_cons_of_mem a hb)))

theorem allDeps_perm (idx₁ idx₂ : Index)
    (hpkg : idx₂.packages = idx₁.packages)
    (hver : ∀ p, ((idx₂.get p).versions).Perm ((idx₁.get p).versions))
    (hinfo : ∀ p, (idx₂.get p).info = (idx₁.get p).info) :
    (Index.allDeps idx₂).Perm (Index.allDeps idx₁) := by
  unfold Index.allDeps
  rw [hpkg]
  apply flatMap_perm_congr
  intro q _
  rw [hinfo q]
  exact List.Perm.flatMap_right _ (hver q)

theorem preAllowedFor_perm_eq (idx₁ idx₂ : Index) (opts : ResolutionOptions)
    (roots : List Requirement) (p : String)
    (hpkg : idx₂.packages = idx₁.packages)
    (hver : ∀ q, ((idx₂.get q).versions).Perm ((idx₁.get q).versions))
    (hinfo : ∀ q, (idx₂.get q).info = (idx₁.get q).info) :
    preAllowedFor idx₂ opts roots p = preAllowedFor idx₁ opts roots p := by
  unfold preAllowedFor
  cases opts.prerelease with
  | disallow => rfl
  | allow => rfl
  | ifNecessary => exact all_perm (hver p) _
  | explicitPre =>
    unfold mentionsPreFor
    exact any_perm ((allDeps_perm idx₁ idx₂ hpkg hver hinfo).append_left roots) _

theorem orderedVersions_perm_eq (idx₁ idx₂ : Index) (opts : ResolutionOptions)
    (rootNames : List String) (p : String)
    (hver : ∀ q, ((idx₂.get q).versions).Perm ((idx₁.get q).versions)) :
    orderedVersions idx₂ opts rootNames p = orderedVersions idx₁ opts rootNames p := by
  unfold orderedVersions
  rw [sortVersions_eq_of_perm _ _ (hver p)]

theorem admissibleVersions_perm_eq (idx₁ idx₂ : Index) (opts : ResolutionOptions)
    (roots : List Requirement)
    (hpkg : idx₂.packages = idx₁.packages)
    (hver : ∀ q, ((idx₂.get q).versions).Perm ((idx₁.get q).versions))
    (hinfo : ∀ q, (idx₂.get q).info = (idx₁.get q).info) :
    admissibleVersions idx₂ opts roots = admissibleVersions idx₁ opts roots := by
  funext p
  unfold admissibleVersions
  rw [orderedVersions_perm_eq idx₁ idx₂ opts _ p hver,
    preAllowedFor_perm_eq idx₁ idx₂ opts roots p hpkg hver hinfo, hinfo p]

theorem sizeBound_perm_eq (idx₁ idx₂ : Index)
    (hpkg : idx₂.packages = idx₁.packages)
    (hver : ∀ q, ((idx₂.get q).versions).Perm ((idx₁.get q).versions))
    (hinfo : ∀ q, (idx₂.get q).info = (idx₁.get q).info) :
    Index.sizeBound idx₂ = Index.sizeBound idx₁ := by
  unfold Index.sizeBound
  rw [hpkg]
  congr 1
  apply List.map_congr_left
  intro p _
  congr 1
  rw [hinfo p]
  exact (List.Perm.map _ (hver p)).sum_eq

end ResolverModel

namespace ResolverModel

/-- Claim C7: `resolve` is deterministic — identical manifest, options and
metadata snapshot yield the same graph and byte-identical serialized
text, independent of the (network-determined) order in which each
package's release list was delivered. -/
theorem resolve_deterministic :
    ∀ (idx₁ idx₂ : Index) (ctx : BuildContext) (m : Manifest)
      (opts : ResolutionOptions),
      idx₂.packages = idx₁.packages →
      (∀ p, ((idx₂.get p).versions).Perm ((idx₁.get p).versions)) →
      (∀ p, (idx₂.get p).info = (idx₁.get p).info) →
      resolve idx₂ ctx m opts = resolve idx₁ ctx m opts ∧
      (resolve idx₂ ctx m opts).map graphText =
        (resolve idx₁ ctx m opts).map graphText := by
  intro idx₁ idx₂ ctx m opts hpkg hver hinfo
  have hres : resolve idx₂ ctx m opts = resolve idx₁ ctx m opts := by
    unfold resolve
    rw [admissibleVersions_perm_eq idx₁ idx₂ opts m.requirements hpkg hver hinfo]
    rw [show (fun p v => fetchMetadata ctx ((idx₂.get p).info v)) =
        (fun p v => fetchMetadata ctx ((idx₁.get p).info v)) from
      funext (fun p => by rw [hinfo p])]
    rw [show resolveFuel idx₂ m = resolveFuel idx₁ m from by
      unfold resolveFuel
      rw [sizeBound_perm_eq idx₁ idx₂ hpkg hver hinfo]]
  exact ⟨hres, by rw [hres]⟩

/-- Witness for C7: the black fixture with its version list shuffled
resolves to the identical graph. -/
theorem resolve_deterministic_witness :
    resolve blackIndexShuffled testCtx (manifestOf [blackRootLe2391]) defaultOptions =
      resolve blackIndex testCtx (manifestOf [blackRootLe2391]) defaultOptions ∧
    (resolve blackIndexShuffled testCtx (manifestOf [blackRootLe2391]) defaultOptions).map graphText =
      (resolve blackIndex testCtx (manifestOf [blackRootLe2391]) defaultOptions).map graphText :=
  resolve_deterministic blackIndex blackIndexShuffled testCtx
    (manifestOf [blackRootLe2391]) defaultOptions rfl
    (fun p => by
      show (blackPackageShuffled p).versions.Perm ((blackPackage p)).versions
      simp only [blackPackageShuffled]
      by_cases hp : (p == "black") = true
      · have hp' : p = "black" := by simpa using hp
        subst hp'
        decide
      · rw [if_neg hp])
    (fun p => by
      show (blackPackageShuffled p).info = (blackPackage p).info
      simp only [blackPackageShuffled]
      by_cases hp : (p == "black") = true
      · have hp' : p = "black" := by simpa using hp
        subst hp'
        rw [if_pos hp]
      · rw [if_neg hp])

end ResolverModel

namespace ResolverModel

/-- Claim C4: a constraint carrying extras is applied as if the extras
were absent — the resolution with constraint `name[extras] spec` equals
the one with `name spec`, and in the concrete fixture the extras table of
the constrained package contributes no node (`extradep` stays out of the
graph even though `mypy-extensions[extra]` would pull it in as a
requirement). -/
theorem constraint_extras_ignored :
    (∀ (idx : Index) (ctx : BuildContext) (rs cs ps : List Requirement)
       (opts : ResolutionOptions) (n : String) (es : List String) (s : Specifier),
       resolve idx ctx
         { requirements := rs, constraints := cs ++ [reqx n es s], preferences := ps }
         opts =
       resolve idx ctx
         { requirements := rs, constraints := cs ++ [req n s], preferences := ps }
         opts) ∧
    resolve blackIndex testCtx
      { requirements := [blackRootLe2391],
        constraints := [reqx "mypy-extensions" ["extra"] [⟨Op.lt, ver [0, 4, 4]⟩]],
        preferences := [] } defaultOptions =
    resolve blackIndex testCtx
      { requirements := [blackRootLe2391],
        constraints := [req "mypy-extensions" [⟨Op.lt, ver [0, 4, 4]⟩]],
        preferences := [] } defaultOptions ∧
    (resolve blackIndex testCtx
      { requirements := [blackRootLe2391],
        constraints := [reqx "mypy-extensions" ["extra"] [⟨Op.lt, ver [0, 4, 4]⟩]],
        preferences := [] } defaultOptions).map graphNames =
      Except.ok ["black", "click", "mypy-extensions", "packaging", "pathspec",
        "platformdirs"] ∧
    "extradep" ∉ ["black", "click", "mypy-extensions", "packaging", "pathspec",
      "platformdirs"] := by
  refine ⟨?_, by rfl, by rfl, by decide⟩
  intro idx ctx rs cs ps opts n es s
  have h : normalizeConstraints (cs ++ [reqx n es s]) =
      normalizeConstraints (cs ++ [req n s]) := by
    simp [normalizeConstraints, reqx, req]
  simp only [resolve]
  rw [h]
  rfl

end ResolverModel

namespace ResolverModel

/-- Claim C8: every `DummyContext` method except `interpreter` panics
unconditionally, and when every candidate carries a compatible wheel
(wheel METADATA available) the build context is never consulted: `resolve`
gives the same result under the panicking stub as under any other
context, and on the wheel-only black fixture the stubbed run equals the
pure-context run. -/
theorem dummy_context_never_built :
    (∀ i : VenvModel.Interpreter,
      (DummyContext i).cache = CtxResult.panicked dummyPanicMsg ∧
      (DummyContext i).interpreter = CtxResult.value i ∧
      (DummyContext i).base_python = CtxResult.panicked dummyPanicMsg ∧
      (DummyContext i).resolve = CtxResult.panicked dummyPanicMsg ∧
      (DummyContext i).install = CtxResult.panicked dummyPanicMsg ∧
      (DummyContext i).build_source = CtxResult.panicked dummyPanicMsg) ∧
    (∀ (idx : Index) (m : Manifest) (opts : ResolutionOptions)
       (ctx ctx' : BuildContext),
       (∀ p v, ((idx.get p).info v).hasCompatibleWheel = true) →
       resolve idx ctx m opts = resolve idx ctx' m opts) ∧
    resolve blackIndex (DummyContext VenvModel.sampleInterpreter)
      (manifestOf [blackRootLe2391]) defaultOptions =
      resolve blackIndex pureCtx (manifestOf [blackRootLe2391]) defaultOptions := by
  have hgen : ∀ (idx : Index) (m : Manifest) (opts : ResolutionOptions)
      (ctx ctx' : BuildContext),
      (∀ p v, ((idx.get p).info v).hasCompatibleWheel = true) →
      resolve idx ctx m opts = resolve idx ctx' m opts := by
    intro idx m opts ctx ctx' hw
    simp only [resolve]
    rw [show (fun p v => fetchMetadata ctx ((idx.get p).info v)) =
        (fun p v => fetchMetadata ctx' ((idx.get p).info v)) from
      funext fun p => funext fun v => by simp [fetchMetadata, hw p v]]
  have hblack : ∀ (p : String) (v : Version),
      ((blackIndex.get p).info v).hasCompatibleWheel = true := by
    intro p v
    show ((blackPackage p).info v).hasCompatibleWheel = true
    by_cases hv : v.isPre = true
    · unfold blackPackage emptyPackage wheelInfo
      repeat' split
      all_goals simp [hv]
    · unfold blackPackage emptyPackage wheelInfo
      repeat' split
      all_goals simp [hv]
  exact ⟨fun i => ⟨rfl, rfl, rfl, rfl, rfl, rfl⟩, hgen,
    hgen blackIndex (manifestOf [blackRootLe2391]) defaultOptions
      (DummyContext VenvModel.sampleInterpreter) pureCtx hblack⟩

end ResolverModel

namespace ResolverModel

/-- Claim C1 counterexample: with `IfNecessary`, resolving `black<=20.0`
fails with a no-solution error naming black even though a pre-release of
black (19.10b0) is in the index, satisfies the root specifier and passes
every non-prerelease admissibility filter — the claimed rescue pass does
not admit it (the in-tree test asserts exactly this error). -/
theorem if_necessary_fails_despite_prerelease :
    resolve blackIndex testCtx (manifestOf [blackRootLe20])
      (optionsWithPre PreReleaseMode.ifNecessary) =
      Except.error (ResolutionError.noSolution "black") ∧
    preVer [19, 10] 0 ∈ (blackIndex.get "black").versions ∧
    Version.isPre (preVer [19, 10] 0) = true ∧
    blackRootLe20.specifier.satisfies (preVer [19, 10] 0) = true ∧
    passesFilters (optionsWithPre PreReleaseMode.ifNecessary) [blackRootLe20]
      true "black" ((blackIndex.get "black").info (preVer [19, 10] 0))
      (preVer [19, 10] 0) = true :=
  ⟨by rfl, by decide, by decide, by decide, by decide⟩

/-- Claim C1 (amended): under `IfNecessary` the sampled code runs no
rescue pass keyed on the accumulated requirement — pre-releases are
admitted only for packages having no stable release at all.  Hence
`black<=20.0` fails with a no-solution error naming black exactly as
under `Disallow` (matching the test `black_allow_prerelease_if_necessary`,
which asserts an error), while a package whose only releases are
pre-releases does resolve. -/
theorem if_necessary_no_second_pass :
    resolve blackIndex testCtx (manifestOf [blackRootLe20])
      (optionsWithPre PreReleaseMode.ifNecessary) =
      Except.error (ResolutionError.noSolution "black") ∧
    resolve blackIndex testCtx (manifestOf [blackRootLe20])
      (optionsWithPre PreReleaseMode.disallow) =
      Except.error (ResolutionError.noSolution "black") ∧
    (∀ (idx : Index) (opts : ResolutionOptions) (roots : List Requirement)
       (p : String) (v : Version),
       opts.prerelease = PreReleaseMode.ifNecessary → v.isPre = true →
       v ∈ admissibleVersions idx opts roots p →
       (idx.get p).versions.all (fun w => w.isPre) = true) ∧
    (resolve preOnlyIndex testCtx (manifestOf [req "preonly" []])
      (optionsWithPre PreReleaseMode.ifNecessary)).map graphText =
      Except.ok "preonly==1b0\n" := by
  refine ⟨by rfl, by rfl, ?_, by rfl⟩
  intro idx opts roots p v hmode hpre hmem
  unfold admissibleVersions at hmem
  rw [List.mem_filter] at hmem
  have hpred := hmem.2
  simp only [passesFilters, hpre, Bool.not_true, Bool.false_or,
    Bool.and_eq_true] at hpred
  have hallow : preAllowedFor idx opts roots p = true := by tauto
  simp only [preAllowedFor, hmode] at hallow
  exact hallow

/-- Claim C6: under `Explicit`, a pre-release version is admissible for a
package exactly when it passes the other filters and some root-or-derived
specifier for that package syntactically mentions a pre-release bound;
concretely, with roots `pylint==2.3.0, isort>=5.0.0` the graph takes the
stable isort 5.12.0 (no pre-release selected), while with
`isort>=5.0.0b0` it takes the pre-release isort 5.13.0b1. -/
theorem explicit_prerelease_admission :
    (∀ (idx : Index) (opts : ResolutionOptions) (roots : List Requirement)
       (p : String) (v : Version),
       opts.prerelease = PreReleaseMode.explicitPre → v.isPre = true →
       (v ∈ admissibleVersions idx opts roots p ↔
         (v ∈ orderedVersions idx opts (roots.map Requirement.name) p ∧
          passesFilters opts roots true p ((idx.get p).info v) v = true ∧
          mentionsPreFor idx roots p = true))) ∧
    (resolve pylintIndex testCtx
      (manifestOf [req "pylint" [⟨Op.eq, ver [2, 3, 0]⟩],
        req "isort" [⟨Op.ge, ver [5, 0, 0]⟩]])
      (optionsWithPre PreReleaseMode.explicitPre)).map graphText =
      Except.ok "astroid==2.2.5\nisort==5.12.0\nmccabe==0.6.1\npylint==2.3.0\n" ∧
    (resolve pylintIndex testCtx
      (manifestOf [req "pylint" [⟨Op.eq, ver [2, 3, 0]⟩],
        req "isort" [⟨Op.ge, preVer [5, 0, 0] 0⟩]])
      (optionsWithPre PreReleaseMode.explicitPre)).map graphText =
      Except.ok "astroid==2.2.5\nisort==5.13.0b1\nmccabe==0.6.1\npylint==2.3.0\n" ∧
    Version.isPre (preVer [5, 13, 0] 1) = true ∧
    Version.isPre (ver [5, 12, 0]) = false := by
  refine ⟨?_, by rfl, by rfl, by decide, by decide⟩
  intro idx opts roots p v hmode hpre
  have hpa : preAllowedFor idx opts roots p = mentionsPreFor idx roots p := by
    simp [preAllowedFor, hmode]
  unfold admissibleVersions
  rw [List.mem_filter]
  constructor
  · rintro ⟨hord, hpred⟩
    rw [hpa] at hpred
    simp only [passesFilters, hpre, Bool.not_true, Bool.false_or,
      Bool.and_eq_true] at hpred
    refine ⟨hord, ?_, by tauto⟩
    simp only [passesFilters, hpre, Bool.not_true, Bool.false_or, Bool.or_true,
      Bool.and_eq_true]
    tauto
  · rintro ⟨hord, hbase, hment⟩
    refine ⟨hord, ?_⟩
    rw [hpa]
    simp only [passesFilters, hpre, Bool.not_true, Bool.false_or, Bool.or_true,
      Bool.and_eq_true] at hbase ⊢
    tauto

end ResolverModel

namespace ResolverModel

theorem pickCandidate_prefs_append (cands : String → List Version)
    (cons : List (String × Specifier)) (prefs : List Requirement)
    (bp : Requirement)
    (hbp : ∀ v ∈ cands bp.name, bp.specifier.satisfies v = false)
    (r : Requirement) :
    pickCandidate cands cons (prefs ++ [bp]) r =
      pickCandidate cands cons prefs r := by
  unfold pickCandidate
  rw [find?_congrOn (candidatePool cands cons r)
    (fun v => prefMatches (prefs ++ [bp]) r.name v)
    (fun v => prefMatches prefs r.name v)]
  intro v hv
  have hvc : v ∈ cands r.name := (List.mem_filter.mp hv).1
  unfold prefMatches
  rw [List.any_append]
  have hlast : [bp].any (fun rq => rq.name == r.name && rq.specifier.satisfies v)
      = false := by
    simp only [List.any_cons, List.any_nil, Bool.or_false]
    by_cases hn : (bp.name == r.name) = true
    · have hn' : bp.name = r.name := by simpa using hn
      have hsf := hbp v (by rw [hn']; exact hvc)
      simp [hsf]
    · have hn' : (bp.name == r.name) = false := by
        cases hq : (bp.name == r.name) with
        | true => exact absurd hq hn
        | false => rfl
      simp [hn']
  rw [hlast, Bool.or_false]

theorem resolveLoop_prefs_append (cands : String → List Version)
    (cons : List (String × Specifier)) (prefs : List Requirement)
    (depsOf : String → Version → Except ResolutionError Metadata)
    (bp : Requirement)
    (hbp : ∀ v ∈ cands bp.name, bp.specifier.satisfies v = false) :
    ∀ (fuel : Nat) (assigned : List (String × Version))
      (extras : List (String × String)) (worklist : List Requirement),
      resolveLoop cands cons (prefs ++ [bp]) depsOf fuel assigned extras worklist =
        resolveLoop cands cons prefs depsOf fuel assigned extras worklist := by
  intro fuel
  induction fuel with
  | zero => intro assigned extras worklist; rfl
  | succ fuel ih =>
    intro assigned extras worklist
    cases worklist with
    | nil => rfl
    | cons r rest =>
      simp only [resolveLoop]
      rcases hfind : assigned.find? (fun a => a.1 == r.name) with - | ⟨q, v⟩
      · simp only [hfind]
        rw [pickCandidate_prefs_append cands cons prefs bp hbp r]
        rcases hpick : pickCandidate cands cons prefs r with - | v
        · simp only [hpick]
        · simp only [hpick]
          rcases hdep : depsOf r.name v with e | md
          · simp only [hdep]
          · simp only [hdep]
            exact ih _ _ _
      · simp only [hfind]
        by_cases hsat : r.specifier.satisfies v = true
        · simp only [hsat, if_true]
          rcases hdep : depsOf r.name v with e | md
          · simp only [hdep]
          · simp only [hdep]
            exact ih _ _ _
        · simp only [hsat, if_false]
          rfl

end ResolverModel

namespace ResolverModel

/-- Claim C5: a preference matching no admissible candidate is silently
discarded — appending it to the manifest leaves the resolution unchanged;
concretely, preferring `black==23.9.2` (not in the snapshot) leaves the
graph of `black<=23.9.1` untouched, while the admissible preference
`black==23.9.0` is honoured and pins black to 23.9.0. -/
theorem preference_outside_solution_space_neutral :
    (∀ (idx : Index) (ctx : BuildContext) (rs cs ps : List Requirement)
       (opts : ResolutionOptions) (bp : Requirement),
       (∀ v ∈ admissibleVersions idx opts rs bp.name,
          bp.specifier.satisfies v = false) →
       resolve idx ctx
         { requirements := rs, constraints := cs, preferences := ps ++ [bp] }
         opts =
       resolve idx ctx
         { requirements := rs, constraints := cs, preferences := ps } opts) ∧
    resolve blackIndex testCtx
      { requirements := [blackRootLe2391], constraints := [],
        preferences := [req "black" [⟨Op.eq, ver [23, 9, 2]⟩]] } defaultOptions =
      resolve blackIndex testCtx (manifestOf [blackRootLe2391]) defaultOptions ∧
    (resolve blackIndex testCtx
      { requirements := [blackRootLe2391], constraints := [],
        preferences := [req "black" [⟨Op.eq, ver [23, 9, 0]⟩]] }
      defaultOptions).map graphText =
      Except.ok "black==23.9.0\nclick==8.1.7\nmypy-extensions==1.0.0\npackaging==23.2\npathspec==0.11.2\nplatformdirs==4.0.0\n" := by
  refine ⟨?_, by rfl, by rfl⟩
  intro idx ctx rs cs ps opts bp hbp
  simp only [resolve]
  rw [resolveLoop_prefs_append (admissibleVersions idx opts rs)
    (normalizeConstraints cs) ps
    (fun p v => fetchMetadata ctx ((idx.get p).info v)) bp hbp]
  rfl

end ResolverModel

namespace ResolverModel

theorem extrasDeps_subset (md : Metadata) (es : List String) (r : Requirement)
    (h : r ∈ extrasDeps md es) : r ∈ md.2.flatMap Prod.snd := by
  unfold extrasDeps at h
  rcases List.mem_flatMap.mp h with ⟨e, _, hr⟩
  rcases hf : md.2.find? (fun kv => kv.1 == e) with - | kv
  · rw [hf] at hr
    simp at hr
  · rw [hf] at hr
    exact List.mem_flatMap.mpr ⟨kv, List.mem_of_find?_eq_some hf, hr⟩

theorem fetchMetadata_ok_eq (ctx : BuildContext) (vi : VersionInfo) (md : Metadata)
    (h : fetchMetadata ctx vi = Except.ok md) :
    md = (vi.deps, vi.optionalDeps) := by
  unfold fetchMetadata at h
  by_cases hw : vi.hasCompatibleWheel = true
  · rw [if_pos hw] at h
    exact (Except.ok.inj h).symm
  · rw [if_neg hw] at h
    rcases hb : ctx.build_source with s | msg
    · rw [hb] at h
      exact (Except.ok.inj h).symm
    · rw [hb] at h
      exact absurd h (by simp)

theorem originOk_mono (depsOf : String → Version → Except ResolutionError Metadata)
    (rootNames : List String) (A A' : List (String × Version))
    (hsub : ∀ x ∈ A, x ∈ A') (p : String)
    (h : OriginOk depsOf rootNames A p) : OriginOk depsOf rootNames A' p := by
  rcases h with h | ⟨qv, hqv, md, hmd, hname⟩
  · exact Or.inl h
  · exact Or.inr ⟨qv, hsub qv hqv, md, hmd, hname⟩

theorem resolveLoop_origin (cands : String → List Version)
    (cons : List (String × Specifier)) (prefs : List Requirement)
    (depsOf : String → Version → Except ResolutionError Metadata)
    (rootNames : List String) :
    ∀ (fuel : Nat) (assigned : List (String × Version))
      (extras : List (String × String)) (worklist : List Requirement)
      (A' : List (String × Version)) (E' : List (String × String)),
      (∀ pv ∈ assigned, OriginOk depsOf rootNames assigned pv.1) →
      (∀ r ∈ worklist, OriginOk depsOf rootNames assigned r.name) →
      resolveLoop cands cons prefs depsOf fuel assigned extras worklist =
        Except.ok (A', E') →
      ∀ pv ∈ A', OriginOk depsOf rootNames A' pv.1 := by
  intro fuel
  induction fuel with
  | zero =>
    intro assigned extras worklist A' E' _ _ h
    exact absurd h (by simp [resolveLoop])
  | succ fuel ih =>
    intro assigned extras worklist A' E' hA hW h
    cases worklist with
    | nil =>
      simp only [resolveLoop] at h
      have hpair : (assigned, extras) = (A', E') := Except.ok.inj h
      have hAeq : assigned = A' := congrArg Prod.fst hpair
      subst hAeq
      exact hA
    | cons r rest =>
      simp only [resolveLoop] at h
      rcases hfind : assigned.find? (fun a => a.1 == r.name) with - | ⟨q, w⟩ <;>
        simp only [hfind] at h
      · rcases hpick : pickCandidate cands cons prefs r with - | v <;>
          simp only [hpick] at h
        · exact absurd h (by simp)
        · rcases hdep : depsOf r.name v with e | md <;> simp only [hdep] at h
          · exact absurd h (by simp)
          · refine ih ((r.name, v) :: assigned) _ _ A' E' ?_ ?_ h
            · intro x hx
              rcases List.mem_cons.mp hx with hx | hx
              · subst hx
                exact originOk_mono depsOf rootNames assigned _
                  (fun y hy => List.mem_cons_of_mem _ hy) _
                  (hW r (List.mem_cons_self r rest))
              · exact originOk_mono depsOf rootNames assigned _
                  (fun y hy => List.mem_cons_of_mem _ hy) _ (hA x hx)
            · intro r' hr'
              rcases List.mem_append.mp hr' with h1 | h2
              · rcases List.mem_append.mp h1 with h11 | h12
                · exact originOk_mono depsOf rootNames assigned _
                    (fun y hy => List.mem_cons_of_mem _ hy) _
                    (hW r' (List.mem_cons_of_mem r h11))
                · exact Or.inr ⟨(r.name, v), List.mem_cons_self _ _, md, hdep,
                    List.mem_map_of_mem _ (List.mem_append.mpr (Or.inl h12))⟩
              · have hsub : r' ∈ md.2.flatMap Prod.snd :=
                  extrasDeps_subset md _ r' h2
                exact Or.inr ⟨(r.name, v), List.mem_cons_self _ _, md, hdep,
                  List.mem_map_of_mem _ (List.mem_append.mpr (Or.inr hsub))⟩
      · by_cases hsat : r.specifier.satisfies w = true
        · simp only [hsat, if_true] at h
          rcases hdep : depsOf r.name w with e | md <;> simp only [hdep] at h
          · exact absurd h (by simp)
          · refine ih assigned _ _ A' E' hA ?_ h
            intro r' hr'
            rcases List.mem_append.mp hr' with h1 | h2
            · exact hW r' (List.mem_cons_of_mem r h1)
            · have hqmem : (q, w) ∈ assigned := List.mem_of_find?_eq_some hfind
              have hq : q = r.name := by
                have := List.find?_some hfind
                simpa using this
              have hsub : r' ∈ md.2.flatMap Prod.snd :=
                extrasDeps_subset md _ r' h2
              refine Or.inr ⟨(q, w), hqmem, md, ?_, ?_⟩
              · rw [hq]; exact hdep
              · exact List.mem_map_of_mem _ (List.mem_append.mpr (Or.inr hsub))
        · simp only [hsat, if_false] at h
          exact absurd h (by simp)

theorem mem_buildGraph (assigned : List (String × Version))
    (extras : List (String × String)) (a : String × Version)
    (ha : a ∈ assigned) :
    (a.1, extrasFor extras a.1, a.2) ∈ buildGraph assigned extras := by
  unfold buildGraph
  exact List.mem_map_of_mem _
    ((List.perm_insertionSort nameLe assigned).mem_iff.mpr ha)

theorem mem_buildGraph_inv (assigned : List (String × Version))
    (extras : List (String × String)) (node : String × List String × Version)
    (h : node ∈ buildGraph assigned extras) :
    ∃ a ∈ assigned, node = (a.1, extrasFor extras a.1, a.2) := by
  unfold buildGraph at h
  rcases List.mem_map.mp h with ⟨a, ha, heq⟩
  exact ⟨a, (List.perm_insertionSort nameLe assigned).mem_iff.mp ha, heq.symm⟩

end ResolverModel

namespace ResolverModel

/-- Claim C3 counterexample: adding a constraint can grow the package-name
set of the graph.  On `shiftIndex`, resolving root `a` alone selects
`a` 2.0 and yields `[a]`, while constraining `a<2` forces `a` 1.0 —
whose dependency set includes `b` — and yields `[a, b]`. -/
theorem constraint_can_introduce_package :
    (resolve shiftIndex testCtx (manifestOf [req "a" []]) defaultOptions).map
      graphNames = Except.ok ["a"] ∧
    (resolve shiftIndex testCtx
      { requirements := [req "a" []],
        constraints := [req "a" [⟨Op.lt, ver [2]⟩]],
        preferences := [] } defaultOptions).map graphNames =
      Except.ok ["a", "b"] ∧
    "b" ∈ (["a", "b"] : List String) ∧
    "b" ∉ (["a"] : List String) :=
  ⟨by rfl, by rfl, by decide, by decide⟩

/-- Claim C3 (amended): a constraint never seeds the graph — every
package in a resolution graph is the name of a root requirement or a
(base or extra) dependency of another graph node, so a constraint on a
package not otherwise reachable (`flake8<1` alongside `black<=23.9.1`)
leaves the graph unchanged and its package absent.  (Narrowing a
reachable package's versions can, however, change that package's
dependency set, so the name set is not monotone in general.) -/
theorem constraints_never_seed_graph :
    (∀ (idx : Index) (ctx : BuildContext) (m : Manifest)
       (opts : ResolutionOptions) (g : Graph),
       resolve idx ctx m opts = Except.ok g →
       ∀ node ∈ g, node.1 ∈ m.requirements.map Requirement.name ∨
         ∃ node2 ∈ g, node.1 ∈ nodeDepNames idx node2.1 node2.2.2) ∧
    resolve blackIndex testCtx
      { requirements := [blackRootLe2391],
        constraints := [req "flake8" [⟨Op.lt, ver [1]⟩]],
        preferences := [] } defaultOptions =
      resolve blackIndex testCtx (manifestOf [blackRootLe2391]) defaultOptions ∧
    (resolve blackIndex testCtx
      { requirements := [blackRootLe2391],
        constraints := [req "flake8" [⟨Op.lt, ver [1]⟩]],
        preferences := [] } defaultOptions).map graphNames =
      Except.ok ["black", "click", "mypy-extensions", "packaging", "pathspec",
        "platformdirs"] ∧
    "flake8" ∉ (["black", "click", "mypy-extensions", "packaging", "pathspec",
      "platformdirs"] : List String) := by
  refine ⟨?_, by rfl, by rfl, by decide⟩
  intro idx ctx m opts g h node hnode
  rcases hloop : resolveLoop (admissibleVersions idx opts m.requirements)
      (normalizeConstraints m.constraints) m.preferences
      (fun p v => fetchMetadata ctx ((idx.get p).info v))
      (resolveFuel idx m) [] [] m.requirements with e | ⟨A', E'⟩
  · rw [show resolve idx ctx m opts = Except.error e by
      simp only [resolve]; rw [hloop]] at h
    exact absurd h (by simp)
  · have hg : g = buildGraph A' E' := by
      have : resolve idx ctx m opts = Except.ok (buildGraph A' E') := by
        simp only [resolve]; rw [hloop]
      rw [this] at h
      exact (Except.ok.inj h).symm
    have horigin := resolveLoop_origin (admissibleVersions idx opts m.requirements)
      (normalizeConstraints m.constraints) m.preferences
      (fun p v => fetchMetadata ctx ((idx.get p).info v))
      (m.requirements.map Requirement.name)
      (resolveFuel idx m) [] [] m.requirements A' E'
      (by intro pv hpv; simp at hpv)
      (by intro r hr; exact Or.inl (List.mem_map_of_mem _ hr))
      hloop
    subst hg
    rcases mem_buildGraph_inv A' E' node hnode with ⟨a, haA, heq⟩
    have ho := horigin a haA
    rcases ho with hroot | ⟨qv, hqv, md, hmd, hname⟩
    · left
      rw [heq]
      exact hroot
    · right
      refine ⟨(qv.1, extrasFor E' qv.1, qv.2), mem_buildGraph A' E' qv hqv, ?_⟩
      have hmd' : md = (((idx.get qv.1).info qv.2).deps,
          ((idx.get qv.1).info qv.2).optionalDeps) :=
        fetchMetadata_ok_eq ctx _ md hmd
      rw [heq]
      show a.1 ∈ nodeDepNames idx qv.1 qv.2
      unfold nodeDepNames
      rw [hmd'] at hname
      exact hname

end ResolverModel
